import Mathlib

/-!
Verification development for the evolutionary local-search engine of the
coherence-ai repository.  The JavaScript sources are shallowly embedded:

* JS strings are modelled as `List Char` (`JSStr`);
* JS numbers that can be `Infinity`/`NaN` (scores, temperatures, score
  deltas) are modelled by `JSNum`, rationals extended with the three IEEE
  special values that the engine can actually produce;
* JS functions used as operator actions are modelled by `JSFun`, a record
  of the (settable) `displayName` property, the intrinsic function `name`,
  and the behaviour `run : Env → Env × Option Bool`, where `none` models a
  thrown exception (the environment keeps whatever partial mutation the
  action performed before throwing);
* each call to `Math.random()` (and `Date.now()`) is an oracle input that
  is passed explicitly to the embedded operation, so that probabilistic
  branches become ordinary functions of the drawn value.

Embedded components: `StrategyCOC` (src/agents/strategy_coc.js),
`TSPEnvironment` (src/physics/tsp_environment.js), `ProteinEnvironment`
(src/physics/protein_environment.js) and `MetaUniverse`
(src/kernel/meta_universe.js).
-/

/-! ### JS strings -/

/-- JS strings are modelled as lists of characters. -/
abbrev JSStr := List Char

/-- Models `a || b` for JS strings: the empty string is falsy. -/
def jsFalsyOr (a b : JSStr) : JSStr :=
  if a = [] then b else a

/-- Models `String.prototype.split` with a single-character separator:
the result always has at least one (possibly empty) part. -/
def splitOnChar (sep : Char) : JSStr → List JSStr
  | [] => [[]]
  | c :: rest =>
      let r := splitOnChar sep rest
      if c = sep then [] :: r
      else (c :: r.headD []) :: r.tail

/-- Models `id.split('_')[0]`. -/
def idBase (id : JSStr) : JSStr :=
  (splitOnChar '_' id).headD []

/-! ### JS numbers -/

/-- A JS double as far as the engine's control flow can observe it:
a finite value (modelled as a rational, ignoring rounding), one of the two
infinities, or `NaN`.  Negative zero is not distinguished from `+0`. -/
inductive JSNum where
  | nan : JSNum
  | posInf : JSNum
  | negInf : JSNum
  | fin : ℚ → JSNum
deriving DecidableEq, Repr

/-- Models the JS comparison `x < 0` (false on `NaN`). -/
def jsLtZero : JSNum → Bool
  | JSNum.nan => false
  | JSNum.posInf => false
  | JSNum.negInf => true
  | JSNum.fin q => decide (q < 0)

/-- Models JS unary negation. -/
def jsNeg : JSNum → JSNum
  | JSNum.nan => JSNum.nan
  | JSNum.posInf => JSNum.negInf
  | JSNum.negInf => JSNum.posInf
  | JSNum.fin q => JSNum.fin (-q)

/-- Models JS division (divisor `0` is treated as `+0`; negative zero is
not modelled). -/
def jsDiv : JSNum → JSNum → JSNum
  | JSNum.nan, _ => JSNum.nan
  | _, JSNum.nan => JSNum.nan
  | JSNum.posInf, JSNum.posInf => JSNum.nan
  | JSNum.posInf, JSNum.negInf => JSNum.nan
  | JSNum.negInf, JSNum.posInf => JSNum.nan
  | JSNum.negInf, JSNum.negInf => JSNum.nan
  | JSNum.posInf, JSNum.fin b => if b < 0 then JSNum.negInf else JSNum.posInf
  | JSNum.negInf, JSNum.fin b => if b < 0 then JSNum.posInf else JSNum.negInf
  | JSNum.fin _, JSNum.posInf => JSNum.fin 0
  | JSNum.fin _, JSNum.negInf => JSNum.fin 0
  | JSNum.fin a, JSNum.fin b =>
      if b = 0 then
        (if a = 0 then JSNum.nan else if a < 0 then JSNum.negInf else JSNum.posInf)
      else JSNum.fin (a / b)

/-- Models JS subtraction. -/
def jsSub : JSNum → JSNum → JSNum
  | JSNum.nan, _ => JSNum.nan
  | _, JSNum.nan => JSNum.nan
  | JSNum.posInf, JSNum.posInf => JSNum.nan
  | JSNum.posInf, _ => JSNum.posInf
  | JSNum.negInf, JSNum.negInf => JSNum.nan
  | JSNum.negInf, _ => JSNum.negInf
  | JSNum.fin _, JSNum.posInf => JSNum.negInf
  | JSNum.fin _, JSNum.negInf => JSNum.posInf
  | JSNum.fin a, JSNum.fin b => JSNum.fin (a - b)

/-- Models the JS comparison `a < b` (false whenever `NaN` is involved). -/
def jsLtB : JSNum → JSNum → Bool
  | JSNum.nan, _ => false
  | _, JSNum.nan => false
  | JSNum.posInf, _ => false
  | JSNum.negInf, JSNum.negInf => false
  | JSNum.negInf, _ => true
  | JSNum.fin _, JSNum.posInf => true
  | JSNum.fin _, JSNum.negInf => false
  | JSNum.fin a, JSNum.fin b => decide (a < b)

/-- Models the predicate `r < Math.exp x` for a uniform draw `r`.
`Math.exp` maps `NaN` to `NaN` (every comparison with `NaN` is false),
`-Infinity` to `0`, `+Infinity` to `+Infinity`, and a finite argument to
its real exponential. -/
def randBelowExp (x : JSNum) (r : ℝ) : Prop :=
  match x with
  | JSNum.nan => False
  | JSNum.posInf => True
  | JSNum.negInf => r < 0
  | JSNum.fin q => r < Real.exp (q : ℝ)

/-! ### Operators (`StrategyCOC`, src/agents/strategy_coc.js) -/

/-- A JS function value used as an operator action: the settable
`displayName` property, the intrinsic `name`, and the behaviour.
`run env = (env', some b)` models a normal return of `b` with the
environment mutated to `env'`; `run env = (env', none)` models a thrown
exception observed while the environment has already reached `env'`. -/
structure JSFun (Env : Type) where
  displayName : Option JSStr
  jsname : JSStr
  run : Env → Env × Option Bool

/-- Ancestry metadata of a `StrategyCOC` (all fields optional, as in the
plain JS object literals of the source). -/
structure COCMeta where
  parent : Option JSStr
  parents : List JSStr
  generation : Option ℕ
  lineage : Option JSStr
deriving DecidableEq

/-- Empty metadata, the `meta = {}` constructor default. -/
def COCMeta.empty : COCMeta :=
  { parent := none, parents := [], generation := none, lineage := none }

/-- The mutable state of a `StrategyCOC` instance. -/
structure StrategyCOC (Env : Type) where
  id : JSStr
  action : JSFun Env
  coherence : ℚ
  uses : ℕ
  successes : ℕ
  failures : ℕ
  meta : COCMeta

/-- The `StrategyCOC` constructor: fitness (`coherence`) starts at `1.0`,
all counters at `0`. -/
def mkStrategyCOC {Env : Type} (id : JSStr) (action : JSFun Env)
    (meta : COCMeta) : StrategyCOC Env :=
  { id := id, action := action, coherence := 1, uses := 0, successes := 0,
    failures := 0, meta := meta }

/-- Models `this.meta.generation || 0`. -/
def COCMeta.gen (m : COCMeta) : ℕ :=
  m.generation.getD 0

/-- The fitness clamp `Math.min(Math.max(c, 0.01), 10.0)` applied at the
end of every `feedback` call. -/
def clampCoherence (c : ℚ) : ℚ :=
  min (max c (1 / 100)) 10

/-- `StrategyCOC.feedback`, with the outcome of the Metropolis test
`Math.random() < acceptanceProbability` supplied as the oracle `accept`
(the draw is not consulted at all on the improvement branch). -/
def feedback {Env : Type} (s : StrategyCOC Env) (deltaScore _temperature : JSNum)
    (accept : Bool) : StrategyCOC Env :=
  let s' :=
    if jsLtZero deltaScore then
      { s with successes := s.successes + 1, coherence := s.coherence * (21 / 20) }
    else if accept then
      { s with coherence := s.coherence * (101 / 100) }
    else
      { s with failures := s.failures + 1, coherence := s.coherence * (19 / 20) }
  { s' with coherence := clampCoherence s'.coherence }

/-- The acceptance event of `feedback` for a concrete uniform draw `r`:
`r < Math.exp (-deltaScore / temperature)`.  `temperature` is only ever
read here. -/
def acceptSem (deltaScore temperature : JSNum) (r : ℝ) : Prop :=
  randBelowExp (jsDiv (jsNeg deltaScore) temperature) r

/-- A sequence of `feedback` calls, each with its score delta, temperature
and Metropolis-test outcome. -/
def runFeedbacks {Env : Type} (s : StrategyCOC Env) :
    List (JSNum × JSNum × Bool) → StrategyCOC Env
  | [] => s
  | (d, t, a) :: rest => runFeedbacks (feedback s d t a) rest

/-- `StrategyCOC.apply`: a normal return increments `uses` and forwards
the action's boolean; a thrown exception is swallowed (`uses` is not
incremented, the partial environment mutation is kept) and `false` is
returned. -/
def applyCOC {Env : Type} (s : StrategyCOC Env) (env : Env) :
    StrategyCOC Env × Env × Bool :=
  match s.action.run env with
  | (env', some b) => ({ s with uses := s.uses + 1 }, env', b)
  | (env', none) => (s, env', false)

/-- Models `f.displayName || f.name || 'base'` (`undefined` and the empty
string are both falsy). -/
def funEffName {Env : Type} (f : JSFun Env) : JSStr :=
  jsFalsyOr (f.displayName.getD []) (jsFalsyOr f.jsname ("base".toList))

/-- The composite closure built by `mutateAction`: applies the original
action, discards its result, then applies the second action and returns
its result; an exception from either propagates. -/
def composeFun {Env : Type} (f g : JSFun Env) (nm : JSStr) : JSFun Env :=
  { displayName := some nm,
    jsname := "compositeAction".toList,
    run := fun env =>
      match f.run env with
      | (env', some _) => g.run env'
      | (env', none) => (env', none) }

/-- `StrategyCOC.mutateAction`: with the draw `r` below the hard-coded
threshold `0.3` and a non-empty library, composes the original action
with the library action at index `idx` (the draw `floor(random * length)`
modelled as `idx % length`); otherwise returns the original action
unchanged. -/
def mutateAction {Env : Type} (orig : JSFun Env)
    (lib : List (JSStr × JSFun Env)) (r : ℚ) (idx : ℕ) : JSFun Env :=
  if h : r < 3 / 10 ∧ lib.length ≠ 0 then
    let chosen := lib.get ⟨idx % lib.length, Nat.mod_lt idx (Nat.pos_of_ne_zero h.2)⟩
    composeFun orig chosen.2 (funEffName orig ++ '+' :: chosen.1)
  else orig

/-- The oracle draws consumed by one `cloneWithMutation` call:
the mutation draw, the library-index draw, and `Date.now()`. -/
structure MutOracle where
  r : ℚ
  idx : ℕ
  ts : ℕ
deriving DecidableEq

/-- `StrategyCOC.cloneWithMutation`. -/
def cloneWithMutation {Env : Type} (s : StrategyCOC Env)
    (lib : List (JSStr × JSFun Env)) (o : MutOracle) : StrategyCOC Env :=
  let mutated := mutateAction s.action lib o.r o.idx
  let childMeta : COCMeta :=
    { parent := some s.id, parents := [], generation := some (s.meta.gen + 1),
      lineage := some ("asexual".toList) }
  let newIdBase := jsFalsyOr (mutated.displayName.getD []) (idBase s.id)
  let newId := newIdBase ++ "_mut".toList ++ (toString (o.ts % 100000)).toList
  let child := mkStrategyCOC newId mutated childMeta
  let finalName := jsFalsyOr (mutated.displayName.getD [])
    (jsFalsyOr (s.action.displayName.getD []) (idBase s.id))
  { child with action := { child.action with displayName := some finalName } }

/-- The loop body of the spliced child action: runs the listed sub-actions
in order, keeping the last result (initially `false`); an exception from
any sub-action propagates immediately. -/
def runSeqGo {Env : Type} : List (JSStr × JSFun Env) → Env → Option Bool →
    Env × Option Bool
  | [], env, res => (env, res)
  | a :: rest, env, _ =>
      match a.2.run env with
      | (env', some b) => runSeqGo rest env' (some b)
      | (env', none) => (env', none)

/-- The spliced child action of `crossover`. -/
def runSeq {Env : Type} (acts : List (JSStr × JSFun Env)) (env : Env) :
    Env × Option Bool :=
  runSeqGo acts env (some false)

/-- Models `this.action.displayName || this.id.split('_')[0]`, the
effective display name used by `crossover` and `_getActionSequence`. -/
def cocDisplay {Env : Type} (s : StrategyCOC Env) : JSStr :=
  jsFalsyOr (s.action.displayName.getD []) (idBase s.id)

/-- `StrategyCOC._getActionSequence`: reverses the `+`-joined display name
against the supplied library, dropping unknown part names; a name without
`+` is looked up as a single action. -/
def getActionSequence {Env : Type} (s : StrategyCOC Env)
    (lib : List (JSStr × JSFun Env)) : List (JSStr × JSFun Env) :=
  let name := cocDisplay s
  if '+' ∈ name then
    (splitOnChar '+' name).filterMap
      (fun partName => lib.find? (fun e => e.1 = partName))
  else
    match lib.find? (fun e => e.1 = name) with
    | some e => [e]
    | none => []

/-- The oracle draws consumed by one `crossover` call: the two cut-point
draws, `Date.now()`, and the draws of the fallback `cloneWithMutation`. -/
structure CrossOracle where
  cutA : ℕ
  cutB : ℕ
  ts : ℕ
  fallback : MutOracle
deriving DecidableEq

/-- The spliced display name `x(A|B)` built from the first four characters
of each parent's effective name. -/
def spliceName {Env : Type} (s partner : StrategyCOC Env) : JSStr :=
  "x(".toList ++ (cocDisplay s).take 4 ++ '|' :: ((cocDisplay partner).take 4 ++ [')'])

/-- `StrategyCOC.crossover`: decomposes both parents against the library;
if either sequence is empty it falls back to `cloneWithMutation` on the
first parent; otherwise it concatenates the head of parent A with the
tail of parent B (the cut draws `floor(random * length)` modelled as
`cut % length`), refilling from parent A when the splice is empty. -/
def crossover {Env : Type} (s partner : StrategyCOC Env)
    (lib : List (JSStr × JSFun Env)) (o : CrossOracle) : StrategyCOC Env :=
  let seqA := getActionSequence s lib
  let seqB := getActionSequence partner lib
  if seqA.length = 0 ∨ seqB.length = 0 then
    cloneWithMutation s lib o.fallback
  else
    let pointA := o.cutA % seqA.length
    let pointB := o.cutB % seqB.length
    let spliced := seqA.take pointA ++ seqB.drop pointB
    let childActions := if spliced.length = 0 then spliced ++ seqA else spliced
    let childName := spliceName s partner
    let childFn : JSFun Env :=
      { displayName := some childName, jsname := "childActionFn".toList,
        run := runSeq childActions }
    let childMeta : COCMeta :=
      { parent := none, parents := [s.id, partner.id],
        generation := some (max s.meta.gen partner.meta.gen + 1),
        lineage := some ("sexual".toList) }
    let newId := childName ++ "_x".toList ++ (toString (o.ts % 100000)).toList
    mkStrategyCOC newId childFn childMeta

/-! ### TSP environment (src/physics/tsp_environment.js) -/

/-- The mutable state of a `TSPEnvironment`: the (fixed) city count and
the adjacency matrix, modelled extensionally as a boolean function on
city indices. -/
structure TSPEnv where
  n : ℕ
  adj : ℕ → ℕ → Bool

/-- The adjacency function written by the `setTour` loop: cities `a` and
`b` are connected exactly when they appear cyclically adjacent (in either
order) in the given tour array. -/
def tourEdge (tour : List ℕ) (a b : ℕ) : Bool :=
  (List.range tour.length).any fun i =>
    (tour.getD i 0 = a ∧ tour.getD ((i + 1) % tour.length) 0 = b) ∨
    (tour.getD i 0 = b ∧ tour.getD ((i + 1) % tour.length) 0 = a)

/-- `TSPEnvironment.reset`: clears every edge. -/
def tspReset (e : TSPEnv) : TSPEnv :=
  { e with adj := fun _ _ => false }

/-- `TSPEnvironment.setTour`, restricted to its non-throwing region:
arrays whose length differs from the city count are rejected with no
state change, and an array of the right length is committed by clearing
the matrix and marking its cyclically adjacent pairs.  This extensional
form is faithful exactly when every entry of the array is a valid city
index; the full behaviour — including the `TypeError` the source throws
mid-loop on an out-of-range index — is modelled by `setTourChecked`,
which agrees with this function on in-range arrays. -/
def setTour (e : TSPEnv) (tour : List ℕ) : TSPEnv :=
  if tour.length ≠ e.n then e
  else { e with adj := tourEdge tour }

/-- The write loop of `setTour`, one matrix write pair per index.
`adjacencyMatrix[from][to] = 1` throws a `TypeError` when `from` is not
a row of the matrix (`from ≥ n`, the row is `undefined`); a column index
`to ≥ n` merely extends the row, and the symmetric write
`adjacencyMatrix[to][from] = 1` then throws.  The boolean result `true`
models the thrown exception, with the state as mutated so far. -/
def setTourGo (n : ℕ) (tour : List ℕ) :
    List ℕ → (ℕ → ℕ → Bool) → ((ℕ → ℕ → Bool) × Bool)
  | [], adj => (adj, false)
  | i :: rest, adj =>
      let frm := tour.getD i 0
      let toc := tour.getD ((i + 1) % tour.length) 0
      if n ≤ frm then (adj, true)
      else if n ≤ toc then
        ((fun a b => if a = frm ∧ b = toc then true else adj a b), true)
      else
        setTourGo n tour rest
          (fun a b => if a = toc ∧ b = frm then true
            else if a = frm ∧ b = toc then true else adj a b)

/-- `TSPEnvironment.setTour` with the mid-loop `TypeError` modelled
explicitly: the guard rejects a wrong-length array before any mutation;
otherwise `reset()` clears the matrix and the loop writes each cyclic
pair, possibly throwing part-way (boolean result `true`), in which case
the first component is the partially mutated state the exception leaves
behind. -/
def setTourChecked (e : TSPEnv) (tour : List ℕ) : TSPEnv × Bool :=
  if tour.length ≠ e.n then (e, false)
  else
    let r := setTourGo e.n tour (List.range tour.length) (fun _ _ => false)
    ({ e with adj := r.1 }, r.2)

/-- The degree of city `i`: the number of marked entries in its adjacency
row. -/
def degreeOf (e : TSPEnv) (i : ℕ) : ℕ :=
  ((List.range e.n).filter fun j => e.adj i j).length

/-- The inner `for (neighbor …)` search of `get_current_tour`: the first
city index connected to `cur` and not yet visited. -/
def findNext (e : TSPEnv) (visited : List ℕ) (cur : ℕ) : Option ℕ :=
  (List.range e.n).find? fun j => e.adj cur j && !(visited.contains j)

/-- The `while (tour.length < numCities)` traversal of
`get_current_tour`, with the remaining iteration count as fuel; when the
fuel runs out the closing edge back to `tour[0]` is checked. -/
def traverseTour (e : TSPEnv) : ℕ → List ℕ → List ℕ → ℕ → Option (List ℕ)
  | 0, tour, _, cur => if e.adj cur (tour.headD 0) then some tour else none
  | f + 1, tour, visited, cur =>
      match findNext e visited cur with
      | none => none
      | some nxt => traverseTour e f (tour ++ [nxt]) (nxt :: visited) nxt

/-- `TSPEnvironment.get_current_tour`: `null` unless every degree is
exactly `2` and the greedy walk from city `0` closes a Hamiltonian
cycle. -/
def getCurrentTour (e : TSPEnv) : Option (List ℕ) :=
  if ((List.range e.n).any fun i => decide (degreeOf e i ≠ 2)) || e.n == 0 then none
  else traverseTour e (e.n - 1) [0] [0] 0

/-! ### Protein environment (src/physics/protein_environment.js) -/

/-- The mutable state of a `ProteinEnvironment`: the (fixed) H/P sequence
(`true` = H) and the chain of lattice coordinates; `occupiedCoords` (a
derived cache) is the coordinate set of the chain. -/
structure ProteinEnv where
  sequence : List Bool
  chain : List (ℤ × ℤ)
  occupiedCoords : Finset (ℤ × ℤ)

/-- Squared euclidean distance on the lattice. -/
def latticeDistSq (p q : ℤ × ℤ) : ℤ :=
  (p.1 - q.1) ^ 2 + (p.2 - q.2) ^ 2

/-- `ProteinEnvironment.isValid`: no two residues on the same site and
every consecutive pair at distance exactly `1`. -/
def chainValid (c : List (ℤ × ℤ)) : Bool :=
  decide c.Nodup && decide (c.Chain' fun p q => latticeDistSq p q = 1)

/-- `ProteinEnvironment.updateChain`: commits the new chain (recomputing
the coordinate cache) and returns `true` when it is valid, otherwise
leaves the state untouched and returns `false`. -/
def updateChain (e : ProteinEnv) (newChain : List (ℤ × ℤ)) :
    ProteinEnv × Bool :=
  if chainValid newChain then
    ({ e with chain := newChain, occupiedCoords := newChain.toFinset }, true)
  else (e, false)

/-! ### Population engine (`MetaUniverse`, src/kernel/meta_universe.js) -/

/-- The engine configuration with the defaults of the `MetaUniverse`
constructor filled in for unspecified keys. -/
structure MetaConfig where
  maxPopulation : ℤ
  crossoverRate : ℚ
  mutationRate : ℚ
  eliteSurvivalRate : ℚ
  evolutionInterval : ℕ
  initialTemperature : ℚ
  coolingRate : ℚ
  explorationRate : ℚ
deriving DecidableEq

/-- The constructor defaults of the `MetaUniverse` configuration. -/
def MetaConfig.defaults : MetaConfig :=
  { maxPopulation := 100, crossoverRate := 7 / 10, mutationRate := 3 / 10,
    eliteSurvivalRate := 1 / 10, evolutionInterval := 20,
    initialTemperature := 100, coolingRate := 999 / 1000,
    explorationRate := 1 / 20 }

/-- The duck-typed environment interface consumed by `MetaUniverse.tick`:
`evaluate`, plus the optional `setTour` and `get_current_tour` methods
(the `typeof … === 'function'` checks become the two booleans). -/
structure EnvOps (Env : Type) where
  evaluate : Env → JSNum
  hasSetTour : Bool
  commitTour : Env → List ℕ → Env
  hasGetTour : Bool
  currentTour : Env → Option (List ℕ)

/-- The state of a `MetaUniverse` instance. -/
structure MetaUniverse (Env : Type) where
  config : MetaConfig
  env : Env
  population : List (StrategyCOC Env)
  library : List (JSStr × JSFun Env)
  tickCount : ℕ
  temperature : ℚ
  bestTour : Option (List ℕ)
  bestDistance : JSNum

/-- Models `JSON slice` (`Array.prototype.slice(start, stop)`): negative
indices count from the end, and both are clamped to the array bounds. -/
def jsSliceIdx (len : ℕ) (i : ℤ) : ℕ :=
  if i < 0 then (max ((len : ℤ) + i) 0).toNat else (min i (len : ℤ)).toNat

/-- `Array.prototype.slice(start, stop)`. -/
def jsSlice {α : Type} (l : List α) (start stop : ℤ) : List α :=
  (l.take (jsSliceIdx l.length stop)).drop (jsSliceIdx l.length start)

/-- The cumulative roulette-wheel scan of `selectStrategy`: returns the
index of the first Operator whose running fitness sum reaches the draw. -/
def rouletteScan {Env : Type} : List (StrategyCOC Env) → ℚ → ℚ → ℕ → Option ℕ
  | [], _, _, _ => none
  | c :: rest, r, acc, i =>
      if r ≤ acc + c.coherence then some i
      else rouletteScan rest r (acc + c.coherence) (i + 1)

/-- The oracle draws consumed by one `selectStrategy` call. -/
structure SelOracle where
  rExplore : ℚ
  uniformIdx : ℕ
  rWheel : ℚ
deriving DecidableEq

/-- `MetaUniverse.selectStrategy` as an index into the population (the
source returns the aliased object; the index models which list entry is
mutated in place).  Uniform draws `floor(random * length)` are modelled
as `idx % length`; an empty population yields index `0` (the source would
return `undefined`, but `tick` guards against the empty case). -/
def selectStrategyIdx {Env : Type} (m : MetaUniverse Env) (o : SelOracle) : ℕ :=
  if m.population.length = 0 then 0
  else if o.rExplore < m.config.explorationRate then
    o.uniformIdx % m.population.length
  else
    let total := (m.population.map (fun c => c.coherence)).sum
    if total = 0 then o.uniformIdx % m.population.length
    else
      match rouletteScan m.population (o.rWheel * total) 0 0 with
      | some i => i
      | none => m.population.length - 1

/-- A default Operator, used only to express JS array indexing totally
(`population[i]` where the source guarantees `i` is in bounds). -/
def defaultCOC {Env : Type} : StrategyCOC Env :=
  mkStrategyCOC [] { displayName := none, jsname := [], run := fun e => (e, some false) }
    COCMeta.empty

/-- `MetaUniverse.tournamentSelect` with `k = 3`: the three uniform draws
are supplied as indices; returns `null` exactly when the population is
empty (ties keep the earlier candidate, as the source uses a strict
`>`). -/
def tournamentSelect {Env : Type} (pop : List (StrategyCOC Env))
    (i1 i2 i3 : ℕ) : Option (StrategyCOC Env) :=
  if pop.length = 0 then none
  else
    let cand := fun (i : ℕ) => pop.getD (i % pop.length) defaultCOC
    let step := fun (best : Option (StrategyCOC Env)) (c : StrategyCOC Env) =>
      match best with
      | none => some c
      | some b => if b.coherence < c.coherence then some c else some b
    step (step (step none (cand i1)) (cand i2)) (cand i3)

/-- The oracle draws consumed by one iteration of the `evolvePopulation`
refill loop: the crossover-vs-mutation draw, the two tournaments' index
draws, and the oracles of the child-producing call. -/
structure EvolveOracle where
  rCross : ℚ
  a1 : ℕ
  a2 : ℕ
  a3 : ℕ
  b1 : ℕ
  b2 : ℕ
  b3 : ℕ
  cross : CrossOracle
  mo : MutOracle
deriving DecidableEq

/-- One iteration body of the refill loop: which child (if any) gets
pushed for the given oracle draws.  `none` (no push) happens only when
`tournamentSelect` returns `null`, i.e. only on an empty source
population. -/
def refillChild {Env : Type} (src : List (StrategyCOC Env))
    (lib : List (JSStr × JSFun Env)) (cfg : MetaConfig) (o : EvolveOracle) :
    Option (StrategyCOC Env) :=
  if o.rCross < cfg.crossoverRate then
    match tournamentSelect src o.a1 o.a2 o.a3, tournamentSelect src o.b1 o.b2 o.b3 with
    | some a, some b =>
        if a.id ≠ b.id then some (crossover a b lib o.cross)
        else some (cloneWithMutation a lib o.mo)
    | some a, none => some (cloneWithMutation a lib o.mo)
    | none, _ => none
  else
    match tournamentSelect src o.a1 o.a2 o.a3 with
    | some a => some (cloneWithMutation a lib o.mo)
    | none => none

/-- The `while (newPopulation.length < maxPopulation)` refill loop, with
the iteration count as fuel (`evolvePopulation` passes exactly the number
of missing slots; since every iteration on a non-empty source population
pushes one child, this is the exact JS behaviour). -/
def refillLoop {Env : Type} (src : List (StrategyCOC Env))
    (lib : List (JSStr × JSFun Env)) (cfg : MetaConfig)
    (o : ℕ → EvolveOracle) : ℕ → ℕ → List (StrategyCOC Env) →
    List (StrategyCOC Env)
  | 0, _, acc => acc
  | f + 1, step, acc =>
      if (acc.length : ℤ) < cfg.maxPopulation then
        match refillChild src lib cfg (o step) with
        | some child => refillLoop src lib cfg o f (step + 1) (acc ++ [child])
        | none => refillLoop src lib cfg o f (step + 1) acc
      else acc

/-- The stable descending fitness sort
`population.sort((a, b) => b.coherence - a.coherence)`. -/
def sortByCoherence {Env : Type} (pop : List (StrategyCOC Env)) :
    List (StrategyCOC Env) :=
  pop.mergeSort fun a b => decide (b.coherence ≤ a.coherence)

/-- The elite count `Math.floor(population.length * eliteSurvivalRate)`. -/
def eliteCountOf {Env : Type} (m : MetaUniverse Env) : ℤ :=
  ⌊(m.population.length : ℚ) * m.config.eliteSurvivalRate⌋

/-- `MetaUniverse.evolvePopulation`: no-op below two Operators; otherwise
sorts by fitness, keeps the elite slice, refills to `maxPopulation` by
tournament crossover/mutation, and truncates to `maxPopulation`. -/
def evolvePopulation {Env : Type} (m : MetaUniverse Env)
    (o : ℕ → EvolveOracle) : MetaUniverse Env :=
  if m.population.length < 2 then m
  else
    let sorted := sortByCoherence m.population
    let elites := jsSlice sorted 0 (eliteCountOf m)
    let fuel := (m.config.maxPopulation - (elites.length : ℤ)).toNat
    let refilled := refillLoop sorted m.library m.config o fuel 0 elites
    { m with population := jsSlice refilled 0 m.config.maxPopulation }

/-- The oracle draws consumed by one `tick` call. -/
structure TickOracle where
  sel : SelOracle
  accept : Bool
  evolve : ℕ → EvolveOracle

/-- The per-tick report returned by `tick` (the source also includes the
selected Operator's debug string; the Operator itself is recorded here). -/
structure TickReport (Env : Type) where
  tick : ℕ
  applied : Bool
  strategy : StrategyCOC Env
  deltaScore : JSNum
  score : JSNum
  temperature : ℚ

/-- The ratchet step opening `tick`: when the environment has a `setTour`
method and a best tour is recorded, commit the best tour back into the
environment. -/
def ratchetEnv {Env : Type} (I : EnvOps Env) (m : MetaUniverse Env) : Env :=
  match m.bestTour with
  | some t => if I.hasSetTour then I.commitTour m.env t else m.env
  | none => m.env

/-- `MetaUniverse.tick`: ratchet to the best tour, evaluate, select,
apply, evaluate again, feed the delta back, update the best-known record,
periodically evolve, cool down, and report.  Returns the state unchanged
(and no report) on an empty population. -/
def tick {Env : Type} (I : EnvOps Env) (m : MetaUniverse Env) (o : TickOracle) :
    MetaUniverse Env × Option (TickReport Env) :=
  if m.population.length = 0 then (m, none)
  else
    let env0 := ratchetEnv I m
    let tickCount := m.tickCount + 1
    let initialScore := I.evaluate env0
    let i := selectStrategyIdx m o.sel
    let strat := m.population.getD i defaultCOC
    let applyRes := applyCOC strat env0
    let strat1 := applyRes.1
    let env1 := applyRes.2.1
    let applied := applyRes.2.2
    let finalScore := I.evaluate env1
    let deltaScore := jsSub finalScore initialScore
    let strat2 := feedback strat1 deltaScore (JSNum.fin m.temperature) o.accept
    let pop1 := m.population.set i strat2
    let best := if jsLtB finalScore m.bestDistance then finalScore else m.bestDistance
    let bestTour :=
      if jsLtB finalScore m.bestDistance then
        (if I.hasGetTour then I.currentTour env1 else m.bestTour)
      else m.bestTour
    let m1 : MetaUniverse Env :=
      { m with env := env1, population := pop1, tickCount := tickCount,
               bestTour := bestTour, bestDistance := best }
    let m2 := if tickCount % m.config.evolutionInterval = 0
      then evolvePopulation m1 o.evolve else m1
    let m3 := { m2 with temperature := m2.temperature * m.config.coolingRate }
    (m3, some { tick := tickCount, applied := applied, strategy := strat2,
                deltaScore := deltaScore, score := finalScore,
                temperature := m3.temperature })

/-- A whole run: any sequence of `tick` calls. -/
def runTicks {Env : Type} (I : EnvOps Env) (m : MetaUniverse Env) :
    List TickOracle → MetaUniverse Env
  | [] => m
  | o :: rest => runTicks I (tick I m o).1 rest

/-! ### Concrete fixtures used by witnesses and counterexamples -/

/-- A trivial action on the trivial environment: changes nothing,
returns `false`. -/
def unitFun : JSFun Unit :=
  { displayName := none, jsname := [], run := fun e => (e, some false) }

/-- An action that always throws. -/
def throwFun : JSFun Unit :=
  { displayName := none, jsname := [], run := fun e => (e, none) }

/-- A trivial environment interface for the trivial environment. -/
def unitOps : EnvOps Unit :=
  { evaluate := fun _ => JSNum.fin 0, hasSetTour := false,
    commitTour := fun e _ => e, hasGetTour := false,
    currentTour := fun _ => none }

/-- A one-Operator engine over the trivial environment. -/
def mUnit : MetaUniverse Unit :=
  { config := MetaConfig.defaults, env := (), population := [defaultCOC],
    library := [], tickCount := 0, temperature := 100, bestTour := none,
    bestDistance := JSNum.posInf }

/-- Zero draws for one `cloneWithMutation` call. -/
def mutOracle0 : MutOracle := ⟨0, 0, 0⟩

/-- Zero draws for one `crossover` call. -/
def crossOracle0 : CrossOracle := ⟨0, 0, 0, mutOracle0⟩

/-- Zero draws for one refill-loop iteration. -/
def evolveOracle0 : EvolveOracle := ⟨0, 0, 0, 0, 0, 0, 0, crossOracle0, mutOracle0⟩

/-- Zero draws for one `tick` call. -/
def tickOracle0 : TickOracle :=
  { sel := ⟨0, 0, 0⟩, accept := false, evolve := fun _ => evolveOracle0 }

/-! ### Fitness clamping (claims C1 and C2) -/

lemma clampCoherence_bounds (c : ℚ) :
    1 / 100 ≤ clampCoherence c ∧ clampCoherence c ≤ 10 := by
  refine ⟨le_min (le_max_right _ _) (by norm_num), min_le_right _ _⟩

lemma feedback_coherence_bounds {Env : Type} (s : StrategyCOC Env)
    (d t : JSNum) (a : Bool) :
    1 / 100 ≤ (feedback s d t a).coherence ∧ (feedback s d t a).coherence ≤ 10 :=
  clampCoherence_bounds _

lemma runFeedbacks_bounds {Env : Type}
    (calls : List (JSNum × JSNum × Bool)) (s : StrategyCOC Env)
    (h : 1 / 100 ≤ s.coherence ∧ s.coherence ≤ 10) :
    1 / 100 ≤ (runFeedbacks s calls).coherence ∧
      (runFeedbacks s calls).coherence ≤ 10 := by
  induction calls generalizing s with
  | nil => exact h
  | cons c rest ih =>
      obtain ⟨d, t, a⟩ := c
      exact ih _ (feedback_coherence_bounds _ _ _ _)

/-- C1: starting from the constructor's initial fitness `1.0`, after any
sequence of `feedback` calls (with arbitrary score deltas, temperatures
and Metropolis-test outcomes) an Operator's coherence lies within
`[0.01, 10.0]`; moreover the clamp holds after every single `feedback`
call from any state whatsoever. -/
theorem c1_fitness_always_clamped {Env : Type} (id : JSStr) (act : JSFun Env)
    (m : COCMeta) (calls : List (JSNum × JSNum × Bool)) :
    (1 / 100 ≤ (runFeedbacks (mkStrategyCOC id act m) calls).coherence ∧
      (runFeedbacks (mkStrategyCOC id act m) calls).coherence ≤ 10) ∧
    ∀ (s : StrategyCOC Env) (d t : JSNum) (a : Bool),
      1 / 100 ≤ (feedback s d t a).coherence ∧ (feedback s d t a).coherence ≤ 10 := by
  refine ⟨runFeedbacks_bounds calls _ ?_, fun s d t a => feedback_coherence_bounds s d t a⟩
  simp [mkStrategyCOC]
  norm_num

/-- C2: `feedback` increments the success counter and multiplies fitness
by `1.05` exactly on `deltaScore < 0`; otherwise it multiplies fitness by
`1.01` when the Metropolis draw `r < exp(-deltaScore / temperature)`
accepts, and increments the failure counter and multiplies fitness by
`0.95` when it rejects; with temperature `0`, or whenever the
exponential's argument evaluates to `NaN`, the acceptance event is
impossible (probability `0`), so the rejection branch is taken and the
call never crashes. -/
theorem c2_feedback_metropolis {Env : Type} (s : StrategyCOC Env)
    (d t : JSNum) (a : Bool) (r : ℝ) :
    (jsLtZero d = true →
      feedback s d t a =
        { s with successes := s.successes + 1,
                 coherence := clampCoherence (s.coherence * (21 / 20)) }) ∧
    (jsLtZero d = false → a = true →
      feedback s d t a =
        { s with coherence := clampCoherence (s.coherence * (101 / 100)) }) ∧
    (jsLtZero d = false → a = false →
      feedback s d t a =
        { s with failures := s.failures + 1,
                 coherence := clampCoherence (s.coherence * (19 / 20)) }) ∧
    (t = JSNum.fin 0 → jsLtZero d = false → 0 ≤ r → ¬ acceptSem d t r) ∧
    (jsDiv (jsNeg d) t = JSNum.nan → ¬ acceptSem d t r) := by
  refine ⟨fun h => ?_, fun h ha => ?_, fun h ha => ?_, fun ht hd hr hacc => ?_,
    fun h hacc => ?_⟩
  · simp [feedback, h]
  · simp [feedback, h, ha]
  · simp [feedback, h, ha]
  · subst ht
    cases d with
    | nan => exact hacc
    | posInf =>
        have hdiv : jsDiv (jsNeg JSNum.posInf) (JSNum.fin 0) = JSNum.negInf := by
          decide
        unfold acceptSem at hacc
        rw [hdiv] at hacc
        simp only [randBelowExp] at hacc
        linarith
    | negInf => simp [jsLtZero] at hd
    | fin q =>
        simp only [jsLtZero, decide_eq_false_iff_not, not_lt] at hd
        by_cases hq0 : q = 0
        · subst hq0
          have hdiv : jsDiv (jsNeg (JSNum.fin 0)) (JSNum.fin 0) = JSNum.nan := by
            decide
          unfold acceptSem at hacc
          rw [hdiv] at hacc
          simp only [randBelowExp] at hacc
        · have hq : 0 < q := lt_of_le_of_ne hd (Ne.symm hq0)
          have hdiv : jsDiv (jsNeg (JSNum.fin q)) (JSNum.fin 0) = JSNum.negInf := by
            simp only [jsNeg, jsDiv, if_pos]
            rw [if_neg (neg_ne_zero.mpr hq0), if_pos (neg_neg_of_pos hq)]
          unfold acceptSem at hacc
          rw [hdiv] at hacc
          simp only [randBelowExp] at hacc
          linarith
  · unfold acceptSem at hacc
    rw [h] at hacc
    exact hacc

/-- Witness for C2: concrete instances of the improvement branch and of
the forced rejection at temperature `0`. -/
theorem c2_feedback_metropolis_witness :
    (feedback (mkStrategyCOC [] unitFun COCMeta.empty) (JSNum.fin (-1))
        (JSNum.fin 1) false =
      { mkStrategyCOC ([] : JSStr) unitFun COCMeta.empty with
          successes := (mkStrategyCOC ([] : JSStr) unitFun COCMeta.empty).successes + 1,
          coherence := clampCoherence
            ((mkStrategyCOC ([] : JSStr) unitFun COCMeta.empty).coherence * (21 / 20)) }) ∧
    ¬ acceptSem (JSNum.fin 1) (JSNum.fin 0) ((1 : ℝ) / 2) :=
  ⟨(c2_feedback_metropolis (mkStrategyCOC [] unitFun COCMeta.empty)
      (JSNum.fin (-1)) (JSNum.fin 1) false ((1 : ℝ) / 2)).1 (by decide),
   (c2_feedback_metropolis (mkStrategyCOC ([] : JSStr) unitFun COCMeta.empty)
      (JSNum.fin 1) (JSNum.fin 0) false ((1 : ℝ) / 2)).2.2.2.1 rfl (by decide)
      (by norm_num)⟩

/-! ### Exception handling in apply/tick (claim C8) -/

/-- C8: when the wrapped action throws, `StrategyCOC.apply` swallows the
exception and returns `false` (without counting the use), and `tick`
still returns an ordinary report for every non-empty population — no
action exception escapes a tick. -/
theorem c8_apply_swallows_exceptions {Env : Type} (s : StrategyCOC Env)
    (env env' : Env) (h : s.action.run env = (env', none)) :
    applyCOC s env = (s, env', false) ∧
    ∀ (I : EnvOps Env) (m : MetaUniverse Env) (o : TickOracle),
      m.population.length ≠ 0 → ((tick I m o).2).isSome = true := by
  constructor
  · unfold applyCOC
    rw [h]
  · intro I m o hne
    unfold tick
    rw [if_neg hne]
    rfl

/-- Witness for C8: a concrete throwing action, swallowed by `apply`, and
a concrete tick of the one-Operator engine that still reports. -/
theorem c8_apply_swallows_exceptions_witness :
    applyCOC (mkStrategyCOC [] throwFun COCMeta.empty) () =
      (mkStrategyCOC [] throwFun COCMeta.empty, (), false) ∧
    ((tick unitOps mUnit tickOracle0).2).isSome = true :=
  ⟨(c8_apply_swallows_exceptions (mkStrategyCOC [] throwFun COCMeta.empty)
      () () rfl).1,
   (c8_apply_swallows_exceptions (mkStrategyCOC [] throwFun COCMeta.empty)
      () () rfl).2 unitOps mUnit tickOracle0 (by decide)⟩

/-! ### Mutation probability (claim C3) -/

/-- Definition following the spec's words for claim C3: `cloneWithMutation`
composes "with probability given by the `mutationRate` configuration
option passed to the Engine", i.e. for a uniform draw `r` the composition
event is `r < mutationRate` (with a non-empty library). -/
def specMutationComposes (mutationRate : ℚ) (r : ℚ) (libLen : ℕ) : Bool :=
  decide (r < mutationRate) && decide (0 < libLen)

/-- Counterexample to C3: with the `mutationRate` configuration set to
`0.9` and the uniform draw `0.5`, the spec-mandated decision composes,
but `mutateAction` (which hard-codes `Math.random() < 0.3` and never
reads the configuration) returns the original action unchanged. -/
theorem c3_mutation_rate_counterexample :
    mutateAction unitFun [("a".toList, unitFun)] (1 / 2) 0 = unitFun ∧
    specMutationComposes (9 / 10) (1 / 2) 1 = true ∧
    MetaConfig.defaults.mutationRate = 3 / 10 := by
  refine ⟨?_, by norm_num [specMutationComposes], rfl⟩
  unfold mutateAction
  rw [dif_neg]
  rintro ⟨h1, _⟩
  norm_num at h1

/-- C3 (amended): `cloneWithMutation` composes with the fixed hard-coded
probability `0.3` — the threshold in `mutateAction` — regardless of the
Engine's configured `mutationRate`: it composes with a uniformly chosen
library action exactly when the draw is below `0.3` and the library is
non-empty, and otherwise reuses the Operator's action unchanged. -/
theorem c3_mutation_probability_fixed {Env : Type} (orig : JSFun Env)
    (lib : List (JSStr × JSFun Env)) (r : ℚ) (idx : ℕ) :
    (¬ r < 3 / 10 ∨ lib.length = 0 → mutateAction orig lib r idx = orig) ∧
    (r < 3 / 10 → lib.length ≠ 0 →
      ∃ p ∈ lib, mutateAction orig lib r idx =
        composeFun orig p.2 (funEffName orig ++ '+' :: p.1)) := by
  constructor
  · intro h
    unfold mutateAction
    rw [dif_neg]
    rintro ⟨h1, h2⟩
    rcases h with h | h
    · exact h h1
    · exact h2 h
  · intro h1 h2
    refine ⟨lib.get ⟨idx % lib.length, Nat.mod_lt idx (Nat.pos_of_ne_zero h2)⟩,
      List.get_mem _ _ _, ?_⟩
    unfold mutateAction
    rw [dif_pos ⟨h1, h2⟩]

/-- Witness for C3 (amended): a concrete non-composing call (empty
library) and a concrete composing call below the `0.3` threshold. -/
theorem c3_mutation_probability_fixed_witness :
    mutateAction unitFun ([] : List (JSStr × JSFun Unit)) (1 / 2) 0 = unitFun ∧
    ∃ p ∈ [("a".toList, unitFun)],
      mutateAction unitFun [("a".toList, unitFun)] (1 / 5) 0 =
        composeFun unitFun p.2 (funEffName unitFun ++ '+' :: p.1) :=
  ⟨(c3_mutation_probability_fixed unitFun [] (1 / 2) 0).1 (Or.inr rfl),
   (c3_mutation_probability_fixed unitFun [("a".toList, unitFun)] (1 / 5) 0).2
      (by norm_num) (by decide)⟩

/-! ### Crossover fallback (claim C9) -/

lemma crossover_fallback_of_empty {Env : Type} (s partner : StrategyCOC Env)
    (lib : List (JSStr × JSFun Env)) (o : CrossOracle)
    (h : getActionSequence s lib = [] ∨ getActionSequence partner lib = []) :
    crossover s partner lib o = cloneWithMutation s lib o.fallback := by
  have hcond : (getActionSequence s lib).length = 0 ∨
      (getActionSequence partner lib).length = 0 := by
    rcases h with h | h
    · exact Or.inl (by rw [h]; rfl)
    · exact Or.inr (by rw [h]; rfl)
  unfold crossover
  rw [if_pos hcond]

/-- C9: when either parent's action sequence fails to decompose against
the supplied library, `crossover` returns exactly `cloneWithMutation` of
the first parent — no exception is raised, and the child's action
behaviour is the first parent's action or a two-action composite with a
library action, never an empty sequence. -/
theorem c9_crossover_fallback {Env : Type} (s partner : StrategyCOC Env)
    (lib : List (JSStr × JSFun Env)) (o : CrossOracle)
    (h : getActionSequence s lib = [] ∨ getActionSequence partner lib = []) :
    crossover s partner lib o = cloneWithMutation s lib o.fallback ∧
    ((crossover s partner lib o).action.run = s.action.run ∨
      ∃ p ∈ lib, (crossover s partner lib o).action.run =
        (composeFun s.action p.2 (funEffName s.action ++ '+' :: p.1)).run) := by
  have heq := crossover_fallback_of_empty s partner lib o h
  refine ⟨heq, ?_⟩
  rw [heq]
  by_cases hc : o.fallback.r < 3 / 10 ∧ lib.length ≠ 0
  · right
    refine ⟨lib.get ⟨o.fallback.idx % lib.length, Nat.mod_lt _ (Nat.pos_of_ne_zero hc.2)⟩,
      List.get_mem _ _ _, ?_⟩
    show (mutateAction s.action lib o.fallback.r o.fallback.idx).run = _
    unfold mutateAction
    rw [dif_pos hc]
  · left
    show (mutateAction s.action lib o.fallback.r o.fallback.idx).run = _
    unfold mutateAction
    rw [dif_neg hc]

/-- A seed Operator whose name resolves against no library entry. -/
def cocUnnamed : StrategyCOC Unit := mkStrategyCOC ("zz".toList) unitFun COCMeta.empty

/-- Witness for C9: a concrete crossover against an empty library
degrades to the mutation clone of the first parent. -/
theorem c9_crossover_fallback_witness :
    crossover cocUnnamed cocUnnamed [] crossOracle0 =
      cloneWithMutation cocUnnamed [] crossOracle0.fallback :=
  (c9_crossover_fallback cocUnnamed cocUnnamed [] crossOracle0 (Or.inl rfl)).1

/-! ### Spliced children and re-decomposition (claim C10) -/

/-- A parent whose display name `a+b` has a `+` within its first four
characters (as produced by mutation-composing two one-letter names). -/
def cocPlus : StrategyCOC Unit :=
  mkStrategyCOC ("pa_1".toList)
    { displayName := some ("a+b".toList), jsname := [],
      run := fun e => (e, some false) }
    COCMeta.empty

/-- A parent with the plain library name `cdef`. -/
def cocCdef : StrategyCOC Unit :=
  mkStrategyCOC ("pb_1".toList)
    { displayName := some ("cdef".toList), jsname := [],
      run := fun e => (e, some false) }
    COCMeta.empty

/-- A library against which both parents above decompose, and which also
contains an action named `x(a` — one of the `+`-split fragments of the
spliced child's name. -/
def libPlus : List (JSStr × JSFun Unit) :=
  [("a".toList, unitFun), ("cdef".toList, unitFun), ("x(a".toList, unitFun)]

/-- Counterexample to C10: both parents decompose (so the splicing path
is taken), yet the spliced child's display name `x(a+b|cdef)` does
contain a `+`; moreover, although no library action is registered under
that name, the child's decomposition is non-empty (the fragment `x(a` is
a registered name), so the child is re-splittable. -/
theorem c10_splice_counterexample :
    (getActionSequence cocPlus libPlus).length ≠ 0 ∧
    (getActionSequence cocCdef libPlus).length ≠ 0 ∧
    (crossover cocPlus cocCdef libPlus crossOracle0).action.displayName =
      some ("x(a+b|cdef)".toList) ∧
    ('+' ∈ "x(a+b|cdef)".toList) ∧
    libPlus.find? (fun e => e.1 = "x(a+b|cdef)".toList) = none ∧
    (getActionSequence (crossover cocPlus cocCdef libPlus crossOracle0)
      libPlus).length ≠ 0 := by
  refine ⟨by decide, by decide, rfl, by decide, rfl, by decide⟩

/-- C10 (amended): when neither parent's effective name has a `+` among
its first four characters, the spliced child's display name `x(A|B)`
contains no `+`; if additionally no library action is registered under
that exact name, the child decomposes to the empty sequence and every
later crossover in which it participates (on either side) falls back to
`cloneWithMutation` of its first parent. -/
theorem c10_spliced_child_inert {Env : Type} (s partner : StrategyCOC Env)
    (lib : List (JSStr × JSFun Env)) (o : CrossOracle)
    (hA : getActionSequence s lib ≠ []) (hB : getActionSequence partner lib ≠ [])
    (hpA : '+' ∉ (cocDisplay s).take 4) (hpB : '+' ∉ (cocDisplay partner).take 4) :
    (crossover s partner lib o).action.displayName = some (spliceName s partner) ∧
    '+' ∉ spliceName s partner ∧
    (lib.find? (fun e => e.1 = spliceName s partner) = none →
      getActionSequence (crossover s partner lib o) lib = [] ∧
      (∀ (q : StrategyCOC Env) (o2 : CrossOracle),
        crossover (crossover s partner lib o) q lib o2 =
          cloneWithMutation (crossover s partner lib o) lib o2.fallback) ∧
      (∀ (q : StrategyCOC Env) (o2 : CrossOracle),
        crossover q (crossover s partner lib o) lib o2 =
          cloneWithMutation q lib o2.fallback)) := by
  have hlenA : (getActionSequence s lib).length ≠ 0 := by
    intro h
    exact hA (List.length_eq_zero.mp h)
  have hlenB : (getActionSequence partner lib).length ≠ 0 := by
    intro h
    exact hB (List.length_eq_zero.mp h)
  have hsplit : ¬ ((getActionSequence s lib).length = 0 ∨
      (getActionSequence partner lib).length = 0) := by
    rintro (h | h)
    exacts [hlenA h, hlenB h]
  have hdisp : (crossover s partner lib o).action.displayName =
      some (spliceName s partner) := by
    unfold crossover
    rw [if_neg hsplit]
    rfl
  have hplus : '+' ∉ spliceName s partner := by
    intro hmem
    unfold spliceName at hmem
    rcases List.mem_append.mp hmem with h1 | h2
    · rcases List.mem_append.mp h1 with h3 | h4
      · exact absurd h3 (by decide)
      · exact hpA h4
    · rcases List.mem_cons.mp h2 with h5 | h6
      · exact absurd h5 (by decide)
      · rcases List.mem_append.mp h6 with h7 | h8
        · exact hpB h7
        · exact absurd h8 (by decide)
  refine ⟨hdisp, hplus, fun hfind => ?_⟩
  have hnil : spliceName s partner ≠ [] := by
    unfold spliceName
    rw [show "x(".toList = ['x', '('] from rfl]
    exact List.cons_ne_nil _ _
  have hchildseq : getActionSequence (crossover s partner lib o) lib = [] := by
    unfold getActionSequence
    have hcd : cocDisplay (crossover s partner lib o) = spliceName s partner := by
      unfold cocDisplay
      rw [hdisp]
      unfold jsFalsyOr
      simp only [Option.getD_some]
      rw [if_neg hnil]
    rw [hcd, if_neg hplus, hfind]
  exact ⟨hchildseq,
    fun q o2 => crossover_fallback_of_empty _ q lib o2 (Or.inl hchildseq),
    fun q o2 => crossover_fallback_of_empty q _ lib o2 (Or.inr hchildseq)⟩

/-- A seed Operator named `conn` (and a partner `brk`) for the witness. -/
def cocConn : StrategyCOC Unit :=
  mkStrategyCOC ("conn_1".toList)
    { displayName := some ("conn".toList), jsname := [],
      run := fun e => (e, some false) }
    COCMeta.empty

/-- The `brk` partner Operator for the C10 witness. -/
def cocBrk : StrategyCOC Unit :=
  mkStrategyCOC ("brk_1".toList)
    { displayName := some ("brk".toList), jsname := [],
      run := fun e => (e, some false) }
    COCMeta.empty

/-- A two-entry library resolving both witness parents. -/
def libConnBrk : List (JSStr × JSFun Unit) :=
  [("conn".toList, unitFun), ("brk".toList, unitFun)]

/-- Witness for C10 (amended): the concrete spliced child of `conn` and
`brk` decomposes to the empty sequence. -/
theorem c10_spliced_child_inert_witness :
    getActionSequence (crossover cocConn cocBrk libConnBrk crossOracle0)
      libConnBrk = [] :=
  ((c10_spliced_child_inert cocConn cocBrk libConnBrk crossOracle0
      (fun h => by exact absurd (congrArg List.length h) (by decide))
      (fun h => by exact absurd (congrArg List.length h) (by decide))
      (by decide) (by decide)).2.2 rfl).1

/-! ### Commit validation of the two environments (claim C4) -/

lemma getD_lt (l : List ℕ) (i : ℕ) (h : i < l.length) : l.getD i 0 = l.get ⟨i, h⟩ := by
  simp [List.getD_eq_getElem?_getD, List.getElem?_eq_getElem h, List.get_eq_getElem]

lemma getD_mem (l : List ℕ) (i : ℕ) (h : i < l.length) : l.getD i 0 ∈ l := by
  rw [getD_lt l i h]
  exact List.get_mem l _ _

lemma getD_eq_getElem0 (l : List ℕ) (i : ℕ) (h : i < l.length) :
    l.getD i 0 = l[i] := by
  rw [getD_lt _ _ h]
  exact List.get_eq_getElem _ _


/-- A 3-city environment in the cleared (post-`reset`) adjacency state. -/
def tsp3 : TSPEnv := { n := 3, adj := fun _ _ => false }

/-- A 2-residue protein environment in its straight-line initial state. -/
def protein2 : ProteinEnv :=
  { sequence := [true, true], chain := [(0, 0), (1, 0)],
    occupiedCoords := ([((0 : ℤ), (0 : ℤ)), ((1 : ℤ), (0 : ℤ))]).toFinset }

lemma write2_eq (acc : ℕ → ℕ → Bool) (frm toc a b : ℕ) :
    (if a = toc ∧ b = frm then true
      else if a = frm ∧ b = toc then true else acc a b) =
      (acc a b || decide ((frm = a ∧ toc = b) ∨ (frm = b ∧ toc = a))) := by
  by_cases h1 : a = frm ∧ b = toc
  · obtain ⟨ha, hb⟩ := h1
    subst ha
    subst hb
    simp
  · by_cases h2 : a = toc ∧ b = frm
    · obtain ⟨ha, hb⟩ := h2
      subst ha
      subst hb
      simp
    · rw [if_neg h2, if_neg h1]
      have hno : ¬ ((frm = a ∧ toc = b) ∨ (frm = b ∧ toc = a)) := by
        rintro (⟨x1, x2⟩ | ⟨x1, x2⟩)
        · exact h1 ⟨x1.symm, x2.symm⟩
        · exact h2 ⟨x2.symm, x1.symm⟩
      simp [hno]

lemma setTourGo_in_range (n : ℕ) (t : List ℕ) (hin : ∀ x ∈ t, x < n) :
    ∀ (idxs : List ℕ) (acc : ℕ → ℕ → Bool), (∀ i ∈ idxs, i < t.length) →
      setTourGo n t idxs acc =
        ((fun a b => acc a b || idxs.any fun i =>
            decide ((t.getD i 0 = a ∧ t.getD ((i + 1) % t.length) 0 = b) ∨
              (t.getD i 0 = b ∧ t.getD ((i + 1) % t.length) 0 = a))), false) := by
  intro idxs
  induction idxs with
  | nil =>
      intro acc _
      unfold setTourGo
      refine Prod.ext ?_ rfl
      funext a b
      simp
  | cons i rest ih =>
      intro acc hidx
      have hi : i < t.length := hidx i (List.mem_cons_self i rest)
      have hlen : 0 < t.length := by omega
      have hfrm : t.getD i 0 < n := hin _ (getD_mem _ _ hi)
      have htoc : t.getD ((i + 1) % t.length) 0 < n :=
        hin _ (getD_mem _ _ (Nat.mod_lt _ hlen))
      unfold setTourGo
      dsimp only
      rw [if_neg (by omega), if_neg (by omega)]
      rw [ih _ (fun j hj => hidx j (List.mem_cons_of_mem i hj))]
      refine Prod.ext ?_ rfl
      funext a b
      dsimp only
      rw [write2_eq, List.any_cons, Bool.or_assoc]

lemma setTourGo_throws (n : ℕ) (t : List ℕ) :
    ∀ (idxs : List ℕ) (acc : ℕ → ℕ → Bool),
      (∃ i ∈ idxs, n ≤ t.getD i 0) → (setTourGo n t idxs acc).2 = true := by
  intro idxs
  induction idxs with
  | nil =>
      rintro acc ⟨i, hi, _⟩
      exact absurd hi (List.not_mem_nil i)
  | cons i rest ih =>
      rintro acc ⟨j, hj, hge⟩
      unfold setTourGo
      dsimp only
      by_cases g1 : n ≤ t.getD i 0
      · rw [if_pos g1]
      · rw [if_neg g1]
        by_cases g2 : n ≤ t.getD ((i + 1) % t.length) 0
        · rw [if_pos g2]
        · rw [if_neg g2]
          apply ih
          rcases List.mem_cons.mp hj with rfl | hj2
          · exact absurd hge g1
          · exact ⟨j, hj2, hge⟩

/-- Counterexample to C4, in the model with the thrown `TypeError`
(`setTourChecked`): the length-3 array `[0, 0, 1]` is not a permutation
of the city indices (city `0` duplicated, city `2` missing), yet the
call completes without throwing and mutates the adjacency state; and for
the out-of-range array `[0, 1, 5]` the call throws mid-loop with the
state already mutated — in neither case is the array rejected with the
state left unchanged. -/
theorem c4_commit_counterexample :
    ¬ ([0, 0, 1] : List ℕ).Perm (List.range 3) ∧
    (setTourChecked tsp3 [0, 0, 1]).2 = false ∧
    (setTourChecked tsp3 [0, 0, 1]).1.adj 0 1 = true ∧
    (setTourChecked tsp3 [0, 1, 5]).2 = true ∧
    (setTourChecked tsp3 [0, 1, 5]).1.adj 0 1 = true ∧
    tsp3.adj 0 1 = false := by
  exact ⟨by decide, by decide, by decide, by decide, by decide, rfl⟩

/-- C4 (amended): the protein variant's `updateChain` rejects every
self-overlapping or disconnected chain, leaving the state unchanged and
returning `false`.  The TSP variant's `setTour` rejects with the state
unchanged exactly the arrays whose length differs from the city count;
a right-length array whose entries are all valid city indices — valid
permutation or not — is committed by rebuilding the adjacency matrix
from its cyclically adjacent pairs; and a right-length array containing
an out-of-range index makes the call throw a `TypeError` mid-loop,
after `reset()` has already cleared the matrix, so the state is not
left unchanged either. -/
theorem c4_commit_validation (e : TSPEnv) (t : List ℕ) (p : ProteinEnv)
    (c : List (ℤ × ℤ)) :
    (t.length ≠ e.n → setTourChecked e t = (e, false)) ∧
    (t.length = e.n → (∀ x ∈ t, x < e.n) →
      setTourChecked e t = ({ e with adj := tourEdge t }, false)) ∧
    (t.length = e.n → (∃ x ∈ t, e.n ≤ x) → (setTourChecked e t).2 = true) ∧
    (chainValid c = false → updateChain p c = (p, false)) ∧
    (chainValid c = true →
      updateChain p c = ({ p with chain := c, occupiedCoords := c.toFinset }, true)) := by
  refine ⟨fun h => ?_, fun h hin => ?_, fun h hx => ?_, fun h => ?_, fun h => ?_⟩
  · unfold setTourChecked
    rw [if_pos h]
  · unfold setTourChecked
    rw [if_neg (by omega)]
    rw [setTourGo_in_range e.n t hin _ _ (fun i hi => List.mem_range.mp hi)]
    rfl
  · unfold setTourChecked
    rw [if_neg (by omega)]
    dsimp only
    apply setTourGo_throws
    obtain ⟨x, hxt, hxge⟩ := hx
    obtain ⟨i, hi, hEq⟩ := List.mem_iff_getElem.mp hxt
    refine ⟨i, List.mem_range.mpr hi, ?_⟩
    rw [getD_eq_getElem0 _ _ hi, hEq]
    exact hxge
  · unfold updateChain
    rw [h]
    rfl
  · unfold updateChain
    rw [h]
    rfl

/-- Witness for C4 (amended): a wrong-length tour is rejected without a
state change, an in-range duplicate-city tour is committed cleanly, an
out-of-range tour throws, and an overlapping two-residue chain is
rejected without a state change. -/
theorem c4_commit_validation_witness :
    setTourChecked tsp3 [0, 1] = (tsp3, false) ∧
    setTourChecked tsp3 [0, 0, 1] = ({ tsp3 with adj := tourEdge [0, 0, 1] }, false) ∧
    (setTourChecked tsp3 [0, 1, 5]).2 = true ∧
    updateChain protein2 [(0, 0), (0, 0)] = (protein2, false) :=
  ⟨(c4_commit_validation tsp3 [0, 1] protein2 [(0, 0), (0, 0)]).1 (by decide),
   (c4_commit_validation tsp3 [0, 0, 1] protein2 [(0, 0), (0, 0)]).2.1 rfl
     (by decide),
   (c4_commit_validation tsp3 [0, 1, 5] protein2 [(0, 0), (0, 0)]).2.2.1 rfl
     (by decide),
   (c4_commit_validation tsp3 [0, 1] protein2 [(0, 0), (0, 0)]).2.2.2.1 (by decide)⟩

/-! ### Monotonicity of the best-known score (claim C6) -/

/-- The "never regresses" relation on recorded best scores: unchanged, or
strictly smaller in the JS `<` sense. -/
def bestLe (a b : JSNum) : Prop :=
  a = b ∨ jsLtB a b = true

lemma jsLtB_trans : ∀ {a b c : JSNum},
    jsLtB a b = true → jsLtB b c = true → jsLtB a c = true := by
  intro a b c h1 h2
  cases a <;> cases b <;> cases c <;> simp_all [jsLtB, decide_eq_true_eq]
  all_goals exact lt_trans h1 h2

lemma bestLe_trans {a b c : JSNum} (h1 : bestLe a b) (h2 : bestLe b c) :
    bestLe a c := by
  rcases h1 with h1 | h1
  · rw [h1]; exact h2
  · rcases h2 with h2 | h2
    · rw [← h2]; exact Or.inr h1
    · exact Or.inr (jsLtB_trans h1 h2)

lemma evolvePopulation_bestDistance {Env : Type} (m : MetaUniverse Env)
    (o : ℕ → EvolveOracle) :
    (evolvePopulation m o).bestDistance = m.bestDistance := by
  unfold evolvePopulation
  split <;> rfl

lemma tick_bestDistance {Env : Type} (I : EnvOps Env) (m : MetaUniverse Env)
    (o : TickOracle) (h0 : ¬ m.population.length = 0) :
    (tick I m o).1.bestDistance =
      if jsLtB (I.evaluate (applyCOC (m.population.getD (selectStrategyIdx m o.sel)
          defaultCOC) (ratchetEnv I m)).2.1) m.bestDistance = true
      then I.evaluate (applyCOC (m.population.getD (selectStrategyIdx m o.sel)
          defaultCOC) (ratchetEnv I m)).2.1
      else m.bestDistance := by
  unfold tick
  rw [if_neg h0]
  by_cases h2 : (m.tickCount + 1) % m.config.evolutionInterval = 0
  · dsimp only
    rw [if_pos h2, evolvePopulation_bestDistance]
  · dsimp only
    rw [if_neg h2]

lemma tick_bestLe {Env : Type} (I : EnvOps Env) (m : MetaUniverse Env)
    (o : TickOracle) : bestLe (tick I m o).1.bestDistance m.bestDistance := by
  by_cases h0 : m.population.length = 0
  · exact Or.inl (by rw [tick, if_pos h0])
  · rw [tick_bestDistance I m o h0]
    by_cases hb : jsLtB (I.evaluate (applyCOC (m.population.getD
        (selectStrategyIdx m o.sel) defaultCOC) (ratchetEnv I m)).2.1)
        m.bestDistance = true
    · rw [if_pos hb]
      exact Or.inr hb
    · rw [if_neg hb]
      exact Or.inl rfl

lemma runTicks_bestLe {Env : Type} (I : EnvOps Env) (os : List TickOracle)
    (m : MetaUniverse Env) :
    bestLe (runTicks I m os).bestDistance m.bestDistance := by
  induction os generalizing m with
  | nil => exact Or.inl rfl
  | cons o rest ih => exact bestLe_trans (ih _) (tick_bestLe I m o)

/-- C6: over any run (any sequence of `tick` calls, any environment
interface, any oracle draws, no external reset), the recorded best score
`bestDistance` is monotonically non-increasing: each tick either leaves
it unchanged or strictly lowers it, and it never ends a run larger than
it started. -/
theorem c6_best_score_monotone {Env : Type} (I : EnvOps Env)
    (m : MetaUniverse Env) (os : List TickOracle) (o : TickOracle) :
    ((runTicks I m os).bestDistance = m.bestDistance ∨
      jsLtB (runTicks I m os).bestDistance m.bestDistance = true) ∧
    ((tick I m o).1.bestDistance = m.bestDistance ∨
      jsLtB (tick I m o).1.bestDistance m.bestDistance = true) :=
  ⟨runTicks_bestLe I os m, tick_bestLe I m o⟩

/-! ### Regeneration size bounds (claim C7) -/

lemma tournamentSelect_isSome {Env : Type} (pop : List (StrategyCOC Env))
    (h : pop.length ≠ 0) (i1 i2 i3 : ℕ) :
    (tournamentSelect pop i1 i2 i3).isSome = true := by
  unfold tournamentSelect
  rw [if_neg h]
  dsimp only
  split
  · rfl
  · split <;> rfl

lemma refillChild_isSome {Env : Type} (src : List (StrategyCOC Env))
    (lib : List (JSStr × JSFun Env)) (cfg : MetaConfig) (o : EvolveOracle)
    (h : src.length ≠ 0) : (refillChild src lib cfg o).isSome = true := by
  unfold refillChild
  obtain ⟨a, ha⟩ := Option.isSome_iff_exists.mp (tournamentSelect_isSome src h o.a1 o.a2 o.a3)
  obtain ⟨b, hb⟩ := Option.isSome_iff_exists.mp (tournamentSelect_isSome src h o.b1 o.b2 o.b3)
  rw [ha, hb]
  split
  · dsimp only
    split <;> rfl
  · rfl

lemma refillLoop_length {Env : Type} (src : List (StrategyCOC Env))
    (lib : List (JSStr × JSFun Env)) (cfg : MetaConfig) (o : ℕ → EvolveOracle)
    (hsrc : src.length ≠ 0) :
    ∀ (f step : ℕ) (acc : List (StrategyCOC Env)),
      (refillLoop src lib cfg o f step acc).length =
        acc.length + min f (cfg.maxPopulation - (acc.length : ℤ)).toNat := by
  intro f
  induction f with
  | zero => intro step acc; simp [refillLoop]
  | succ f ih =>
      intro step acc
      unfold refillLoop
      by_cases hlt : (acc.length : ℤ) < cfg.maxPopulation
      · rw [if_pos hlt]
        obtain ⟨child, hc⟩ := Option.isSome_iff_exists.mp
          (refillChild_isSome src lib cfg (o step) hsrc)
        rw [hc]
        rw [ih (step + 1) (acc ++ [child])]
        simp only [List.length_append, List.length_cons, List.length_nil]
        omega
      · rw [if_neg hlt]
        omega

lemma jsSlice_zero_length {α : Type} (l : List α) (stop : ℤ) (h : 0 ≤ stop) :
    (jsSlice l 0 stop).length = min stop.toNat l.length := by
  unfold jsSlice jsSliceIdx
  rw [if_neg (by omega), if_neg (by omega)]
  simp only [List.length_drop, List.length_take]
  omega

lemma evolvePopulation_length {Env : Type} (m : MetaUniverse Env)
    (o : ℕ → EvolveOracle) (h2 : 2 ≤ m.population.length)
    (hmax : 0 ≤ m.config.maxPopulation) :
    (evolvePopulation m o).population.length = m.config.maxPopulation.toNat := by
  unfold evolvePopulation
  rw [if_neg (by omega)]
  dsimp only
  have hsrc : (sortByCoherence m.population).length ≠ 0 := by
    unfold sortByCoherence
    rw [List.length_mergeSort]
    omega
  rw [jsSlice_zero_length _ _ hmax, refillLoop_length _ _ _ _ hsrc]
  set e := (jsSlice (sortByCoherence m.population) 0 (eliteCountOf m)).length
  omega

/-- A population of twenty identical seed Operators. -/
def pop20 : List (StrategyCOC Unit) := List.replicate 20 defaultCOC

/-- An engine whose configured `maxPopulation` (1) is smaller than the
elite count of its 20-Operator population (⌊20 · 0.1⌋ = 2). -/
def mElite : MetaUniverse Unit :=
  { config := { MetaConfig.defaults with maxPopulation := 1 }, env := (),
    population := pop20, library := [], tickCount := 0, temperature := 100,
    bestTour := none, bestDistance := JSNum.posInf }

/-- Counterexample to C7: on a 20-Operator population with
`eliteSurvivalRate = 0.1` and `maxPopulation = 1`, regeneration truncates
the population to a single Operator — strictly below the elite count of
`2` — so "never reduces population size below the elite count" fails. -/
theorem c7_evolve_counterexample :
    2 ≤ mElite.population.length ∧
    eliteCountOf mElite = 2 ∧
    (evolvePopulation mElite (fun _ => evolveOracle0)).population.length = 1 ∧
    ((evolvePopulation mElite (fun _ => evolveOracle0)).population.length : ℤ) <
      eliteCountOf mElite := by
  have hpop : mElite.population.length = 20 := by
    simp [mElite, pop20]
  have helite : eliteCountOf mElite = 2 := by
    unfold eliteCountOf
    rw [hpop]
    norm_num [mElite, MetaConfig.defaults]
  have hlen : (evolvePopulation mElite (fun _ => evolveOracle0)).population.length = 1 := by
    rw [evolvePopulation_length _ _ (by omega) (by norm_num [mElite])]
    rfl
  refine ⟨by omega, helite, hlen, by rw [hlen, helite]; norm_num⟩

/-- C7 (amended): `evolvePopulation` is a no-op on populations with fewer
than two Operators; otherwise — provided the configured `maxPopulation`
is nonnegative and at least the elite count — the refill loop terminates
and the resulting population has exactly `maxPopulation` Operators, hence
never fewer than the elite count and never more than `maxPopulation`
(without that proviso the final size is still exactly `maxPopulation`,
but elites beyond `maxPopulation` are truncated away, as the
counterexample shows). -/
theorem c7_evolve_population_bounds {Env : Type} (m : MetaUniverse Env)
    (o : ℕ → EvolveOracle) :
    (m.population.length < 2 → evolvePopulation m o = m) ∧
    (2 ≤ m.population.length → 0 ≤ m.config.maxPopulation →
      eliteCountOf m ≤ m.config.maxPopulation →
      ((evolvePopulation m o).population.length : ℤ) = m.config.maxPopulation ∧
      eliteCountOf m ≤ ((evolvePopulation m o).population.length : ℤ) ∧
      ((evolvePopulation m o).population.length : ℤ) ≤ m.config.maxPopulation) := by
  constructor
  · intro h
    unfold evolvePopulation
    rw [if_pos h]
  · intro h2 hmax helite
    have hlen := evolvePopulation_length m o h2 hmax
    rw [hlen]
    omega

/-- A two-Operator engine with the default configuration but a zero elite
rate, for the C7 witness. -/
def mEvoW : MetaUniverse Unit :=
  { config := { MetaConfig.defaults with eliteSurvivalRate := 0 }, env := (),
    population := [defaultCOC, defaultCOC], library := [], tickCount := 0,
    temperature := 100, bestTour := none, bestDistance := JSNum.posInf }

/-- Witness for C7 (amended): the two-Operator engine regenerates to
exactly its configured `maxPopulation` (100) Operators. -/
theorem c7_evolve_population_bounds_witness :
    ((evolvePopulation mEvoW (fun _ => evolveOracle0)).population.length : ℤ) =
      mEvoW.config.maxPopulation ∧
    eliteCountOf mEvoW ≤
      ((evolvePopulation mEvoW (fun _ => evolveOracle0)).population.length : ℤ) :=
  ⟨((c7_evolve_population_bounds mEvoW (fun _ => evolveOracle0)).2 (by simp [mEvoW])
      (by norm_num [mEvoW, MetaConfig.defaults])
      (by norm_num [eliteCountOf, mEvoW, MetaConfig.defaults])).1,
   ((c7_evolve_population_bounds mEvoW (fun _ => evolveOracle0)).2 (by simp [mEvoW])
      (by norm_num [mEvoW, MetaConfig.defaults])
      (by norm_num [eliteCountOf, mEvoW, MetaConfig.defaults])).2.1⟩

/-! ### Round trip of `setTour` and `get_current_tour` (claim C5) -/

/-- A 2-city environment in the cleared adjacency state. -/
def tsp2 : TSPEnv := { n := 2, adj := fun _ _ => false }

/-- Counterexample to C5: on a 2-city environment (the constructor allows
any count `≥ 2`) the full permutation `[0, 1]` commits to a single
doubled edge, so each degree is `1` and `get_current_tour` returns
`null` rather than a tour. -/
theorem c5_roundtrip_counterexample :
    ([0, 1] : List ℕ).Perm (List.range 2) ∧
    getCurrentTour (setTour tsp2 [0, 1]) = none := by
  refine ⟨by decide, by decide⟩

lemma getD_inj (l : List ℕ) (hnd : l.Nodup) {i j : ℕ} (hi : i < l.length)
    (hj : j < l.length) (h : l.getD i 0 = l.getD j 0) : i = j := by
  rw [getD_lt _ _ hi, getD_lt _ _ hj, List.get_eq_getElem, List.get_eq_getElem] at h
  exact (List.Nodup.getElem_inj_iff hnd).mp h

lemma getD_rotate (l : List ℕ) (k i : ℕ) (hi : i < l.length) :
    (l.rotate k).getD i 0 = l.getD ((i + k) % l.length) 0 := by
  have hn : 0 < l.length := Nat.lt_of_le_of_lt (Nat.zero_le i) hi
  rw [getD_lt _ _ (by rw [List.length_rotate]; exact hi),
      getD_lt _ _ (Nat.mod_lt _ hn), List.get_eq_getElem, List.get_eq_getElem]
  exact List.getElem_rotate l k i _

lemma getD_reverse (l : List ℕ) (i : ℕ) (hi : i < l.length) :
    l.reverse.getD i 0 = l.getD (l.length - 1 - i) 0 := by
  rw [getD_lt _ _ (by rw [List.length_reverse]; exact hi),
      getD_lt _ _ (by omega), List.get_eq_getElem, List.get_eq_getElem]
  exact List.getElem_reverse _

lemma bool_eq_of_iff {x y : Bool} (h : x = true ↔ y = true) : x = y := by
  cases x <;> cases y <;> simp_all

/-- One oriented cyclically adjacent pair of the committed tour array. -/
def cyclicPair (t : List ℕ) (a b : ℕ) : Prop :=
  ∃ i, i < t.length ∧ t.getD i 0 = a ∧ t.getD ((i + 1) % t.length) 0 = b

lemma tourEdge_eq_true_iff (t : List ℕ) (a b : ℕ) :
    tourEdge t a b = true ↔ cyclicPair t a b ∨ cyclicPair t b a := by
  unfold tourEdge cyclicPair
  simp only [List.any_eq_true, List.mem_range, decide_eq_true_eq]
  constructor
  · rintro ⟨i, hi, (⟨h1, h2⟩ | ⟨h1, h2⟩)⟩
    exacts [Or.inl ⟨i, hi, h1, h2⟩, Or.inr ⟨i, hi, h1, h2⟩]
  · rintro (⟨i, hi, h1, h2⟩ | ⟨i, hi, h1, h2⟩)
    exacts [⟨i, hi, Or.inl ⟨h1, h2⟩⟩, ⟨i, hi, Or.inr ⟨h1, h2⟩⟩]

lemma cyclicPair_rotate_mp (t : List ℕ) (k a b : ℕ)
    (h : cyclicPair (t.rotate k) a b) : cyclicPair t a b := by
  obtain ⟨i, hi, h1, h2⟩ := h
  rw [List.length_rotate] at hi h2
  have hn : 0 < t.length := Nat.lt_of_le_of_lt (Nat.zero_le i) hi
  refine ⟨(i + k) % t.length, Nat.mod_lt _ hn, ?_, ?_⟩
  · rw [← h1, getD_rotate _ _ _ hi]
  · rw [← h2, getD_rotate _ _ _ (Nat.mod_lt _ hn)]
    have hidx : ((i + k) % t.length + 1) % t.length =
        ((i + 1) % t.length + k) % t.length := by
      rw [Nat.mod_add_mod, Nat.mod_add_mod]
      rw [show i + k + 1 = i + 1 + k from by omega]
    rw [hidx]

lemma rotate_cancel (t : List ℕ) (k : ℕ) (hn : 0 < t.length) :
    (t.rotate k).rotate (t.length - k % t.length) = t := by
  rw [List.rotate_rotate]
  have hq := Nat.div_add_mod k t.length
  have hmlt : k % t.length < t.length := Nat.mod_lt _ hn
  rw [show k + (t.length - k % t.length) = t.length * (k / t.length + 1) from by
    rw [Nat.mul_add, Nat.mul_one]
    omega]
  exact List.rotate_length_mul t _

lemma cyclicPair_rotate (t : List ℕ) (k a b : ℕ) :
    cyclicPair (t.rotate k) a b ↔ cyclicPair t a b := by
  constructor
  · exact cyclicPair_rotate_mp t k a b
  · intro h
    rcases Nat.eq_zero_or_pos t.length with hn | hn
    · obtain ⟨i, hi, _⟩ := h
      omega
    · have hcancel := rotate_cancel t k hn
      exact hcancel ▸ cyclicPair_rotate_mp (t.rotate k)
        (t.length - k % t.length) a b (by rw [hcancel]; exact h)

lemma cyclicPair_reverse_mp (t : List ℕ) (a b : ℕ)
    (h : cyclicPair t.reverse a b) : cyclicPair t b a := by
  obtain ⟨i, hi, h1, h2⟩ := h
  rw [List.length_reverse] at hi h2
  have hn : 0 < t.length := Nat.lt_of_le_of_lt (Nat.zero_le i) hi
  rw [getD_reverse _ _ hi] at h1
  rcases Nat.lt_or_ge (i + 1) t.length with hlt | hge
  · -- interior step: the pair (t[n-1-i], t[n-2-i]) reversed
    rw [Nat.mod_eq_of_lt hlt, getD_reverse _ _ hlt] at h2
    refine ⟨t.length - 1 - (i + 1), by omega, by rw [h2], ?_⟩
    rw [Nat.mod_eq_of_lt (by omega), ← h1]
    rw [show t.length - 1 - (i + 1) + 1 = t.length - 1 - i from by omega]
  · -- wrap-around step: i = n - 1
    have hieq : i = t.length - 1 := by omega
    have hmod : (i + 1) % t.length = 0 := by
      rw [show i + 1 = t.length from by omega, Nat.mod_self]
    rw [hmod, getD_reverse _ _ hn] at h2
    rw [show t.length - 1 - 0 = t.length - 1 from by omega] at h2
    refine ⟨t.length - 1, by omega, by rw [h2], ?_⟩
    rw [show t.length - 1 + 1 = t.length from by omega, Nat.mod_self, ← h1, hieq]
    rw [show t.length - 1 - (t.length - 1) = 0 from by omega]

lemma cyclicPair_reverse (t : List ℕ) (a b : ℕ) :
    cyclicPair t.reverse a b ↔ cyclicPair t b a := by
  constructor
  · exact cyclicPair_reverse_mp t a b
  · intro h
    have := cyclicPair_reverse_mp t.reverse b a (by rw [List.reverse_reverse]; exact h)
    exact this

lemma tourEdge_rotate (t : List ℕ) (k a b : ℕ) :
    tourEdge (t.rotate k) a b = tourEdge t a b := by
  apply bool_eq_of_iff
  rw [tourEdge_eq_true_iff, tourEdge_eq_true_iff, cyclicPair_rotate, cyclicPair_rotate]

lemma tourEdge_reverse (t : List ℕ) (a b : ℕ) :
    tourEdge t.reverse a b = tourEdge t a b := by
  apply bool_eq_of_iff
  rw [tourEdge_eq_true_iff, tourEdge_eq_true_iff, cyclicPair_reverse, cyclicPair_reverse]
  exact or_comm

lemma pred_mod (n k : ℕ) (hn : 0 < n) (hk : k < n) :
    (k + n - 1) % n = if k = 0 then n - 1 else k - 1 := by
  by_cases h0 : k = 0
  · rw [if_pos h0, h0]
    rw [show 0 + n - 1 = n - 1 from by omega]
    exact Nat.mod_eq_of_lt (by omega)
  · rw [if_neg h0]
    rw [show k + n - 1 = n + (k - 1) from by omega, Nat.add_mod_left]
    exact Nat.mod_eq_of_lt (by omega)

lemma succ_mod (n k : ℕ) (hk : k < n) :
    (k + 1) % n = if k + 1 = n then 0 else k + 1 := by
  by_cases h : k + 1 = n
  · rw [if_pos h, h, Nat.mod_self]
  · rw [if_neg h]
    exact Nat.mod_eq_of_lt (by omega)

lemma cyclicPair_getD_fst (D : List ℕ) (hnd : D.Nodup) (k : ℕ)
    (hk : k < D.length) (b : ℕ) :
    cyclicPair D (D.getD k 0) b ↔ b = D.getD ((k + 1) % D.length) 0 := by
  have hn : 0 < D.length := by omega
  constructor
  · rintro ⟨i, hi, h1, h2⟩
    have hik : i = k := getD_inj D hnd hi hk h1
    rw [← h2, hik]
  · intro hb
    exact ⟨k, hk, rfl, hb.symm⟩

lemma cyclicPair_getD_snd (D : List ℕ) (hnd : D.Nodup) (k : ℕ)
    (hk : k < D.length) (b : ℕ) :
    cyclicPair D b (D.getD k 0) ↔ b = D.getD ((k + D.length - 1) % D.length) 0 := by
  have hn : 0 < D.length := by omega
  constructor
  · rintro ⟨i, hi, h1, h2⟩
    have hik : (i + 1) % D.length = k :=
      getD_inj D hnd (Nat.mod_lt _ hn) hk h2
    have hi' : i = (k + D.length - 1) % D.length := by
      rcases Nat.lt_or_ge (i + 1) D.length with hlt | hge
      · rw [Nat.mod_eq_of_lt hlt] at hik
        rw [pred_mod _ _ hn hk]
        rw [if_neg (by omega)]
        omega
      · have hieq : i + 1 = D.length := by omega
        have hk0 : k = 0 := by rw [← hik, hieq, Nat.mod_self]
        rw [pred_mod _ _ hn hk, if_pos hk0]
        omega
    rw [← h1, hi']
  · intro hb
    refine ⟨(k + D.length - 1) % D.length, Nat.mod_lt _ hn, hb.symm, ?_⟩
    rw [Nat.mod_add_mod]
    rw [show k + D.length - 1 + 1 = k + D.length from by omega,
      Nat.add_mod_right]
    rw [Nat.mod_eq_of_lt hk]

lemma tourEdge_getD_iff (D : List ℕ) (hnd : D.Nodup) (k : ℕ)
    (hk : k < D.length) (b : ℕ) :
    tourEdge D (D.getD k 0) b = true ↔
      b = D.getD ((k + 1) % D.length) 0 ∨
      b = D.getD ((k + D.length - 1) % D.length) 0 := by
  rw [tourEdge_eq_true_iff, cyclicPair_getD_fst D hnd k hk,
    cyclicPair_getD_snd D hnd k hk]

lemma filter_pair_length (a b : ℕ) (hab : a ≠ b) :
    ∀ (l : List ℕ), l.Nodup →
      (l.filter fun j => decide (j = a ∨ j = b)).length =
        (if a ∈ l then 1 else 0) + (if b ∈ l then 1 else 0) := by
  intro l
  induction l with
  | nil => simp
  | cons x xs ih =>
      intro hnd
      rw [List.nodup_cons] at hnd
      have ihx := ih hnd.2
      rw [List.filter_cons]
      by_cases hxa : x = a
      · subst hxa
        have hba : (b = x) ↔ False := ⟨fun h => hab h.symm, False.elim⟩
        rw [if_pos (by simp)]
        rw [List.length_cons, ihx, if_neg hnd.1]
        simp only [List.mem_cons, true_or, if_true, hba, false_or]
        omega
      · by_cases hxb : x = b
        · subst hxb
          have hax : (a = x) ↔ False := ⟨fun h => hxa h.symm, False.elim⟩
          rw [if_pos (by simp)]
          rw [List.length_cons, ihx, if_neg hnd.1]
          simp only [List.mem_cons, true_or, if_true, hax, false_or]
          try omega
        · have hax : (a = x) ↔ False := ⟨fun h => hxa h.symm, False.elim⟩
          have hbx : (b = x) ↔ False := ⟨fun h => hxb h.symm, False.elim⟩
          rw [if_neg (by simp [hxa, hxb])]
          rw [ihx]
          simp only [List.mem_cons, hax, hbx, false_or]

lemma degreeOf_tourEdge_two (D : List ℕ) (hnd : D.Nodup) (h3 : 3 ≤ D.length)
    (hmem : ∀ x ∈ D, x < D.length) (k : ℕ) (hk : k < D.length) :
    degreeOf ⟨D.length, tourEdge D⟩ (D.getD k 0) = 2 := by
  have hn : 0 < D.length := by omega
  set nxt := D.getD ((k + 1) % D.length) 0 with hnxt
  set prv := D.getD ((k + D.length - 1) % D.length) 0 with hprv
  have hne : nxt ≠ prv := by
    intro h
    have hidx := getD_inj D hnd (Nat.mod_lt _ hn) (Nat.mod_lt _ hn) h
    rw [succ_mod _ _ hk, pred_mod _ _ hn hk] at hidx
    split_ifs at hidx <;> omega
  have hcongr : (List.range D.length).filter
        (fun j => tourEdge D (D.getD k 0) j) =
      (List.range D.length).filter (fun j => decide (j = nxt ∨ j = prv)) :=
    List.filter_congr (fun j _ => by
      apply bool_eq_of_iff
      rw [decide_eq_true_eq]
      exact tourEdge_getD_iff D hnd k hk j)
  show ((List.range D.length).filter fun j => tourEdge D (D.getD k 0) j).length = 2
  rw [hcongr, filter_pair_length nxt prv hne _ (List.nodup_range _)]
  rw [if_pos (List.mem_range.mpr (hmem nxt (getD_mem _ _ (Nat.mod_lt _ hn)))),
     if_pos (List.mem_range.mpr (hmem prv (getD_mem _ _ (Nat.mod_lt _ hn))))]

lemma find?_range_first (n a : ℕ) (p : ℕ → Bool) (ha : a < n) (hpa : p a = true)
    (hfirst : ∀ j, j < a → p j = false) : (List.range n).find? p = some a := by
  induction n with
  | zero => omega
  | succ n ih =>
      rw [List.range_succ, List.find?_append]
      rcases Nat.lt_or_ge a n with h | h
      · rw [ih h]
        rfl
      · have ha' : a = n := by omega
        subst ha'
        have hnone : (List.range a).find? p = none :=
          List.find?_eq_none.mpr (fun x hx => by
            rw [List.mem_range] at hx
            simp [hfirst x hx])
        rw [hnone]
        simp [hpa]

lemma getD_not_mem_take (D : List ℕ) (hnd : D.Nodup) {m j : ℕ}
    (hj : j < D.length) (hmj : m ≤ j) : D.getD j 0 ∉ D.take m := by
  intro hmem
  rw [List.mem_take_iff_getElem] at hmem
  obtain ⟨i, hi, hEq⟩ := hmem
  have hi2 : i < D.length := by omega
  have heq2 : D.getD i 0 = D.getD j 0 := by
    rw [getD_eq_getElem0 D i hi2]
    exact hEq
  have := getD_inj D hnd hi2 hj heq2
  omega

lemma getD_mem_take (D : List ℕ) {m i : ℕ} (hi : i < m) (hi2 : i < D.length) :
    D.getD i 0 ∈ D.take m := by
  rw [List.mem_take_iff_getElem]
  exact ⟨i, by omega, (getD_eq_getElem0 D i hi2).symm⟩

lemma contains_eq_true_iff (V : List ℕ) (j : ℕ) :
    V.contains j = true ↔ j ∈ V := by
  show List.elem j V = true ↔ j ∈ V
  rw [List.elem_eq_mem, decide_eq_true_eq]

lemma headD_eq_getD (l : List ℕ) : l.headD 0 = l.getD 0 0 := by
  cases l <;> rfl

lemma traverse_loop (D : List ℕ) (hnd : D.Nodup) (h3 : 3 ≤ D.length)
    (hmem : ∀ x ∈ D, x < D.length) :
    ∀ (f k : ℕ) (V : List ℕ), k + f = D.length - 1 → 1 ≤ k →
      (∀ x, x ∈ V ↔ x ∈ D.take (k + 1)) →
      traverseTour ⟨D.length, tourEdge D⟩ f (D.take (k + 1)) V (D.getD k 0) =
        some D := by
  have hn : 0 < D.length := by omega
  intro f
  induction f with
  | zero =>
      intro k V hk _ _
      have hkn : k = D.length - 1 := by omega
      subst hkn
      unfold traverseTour
      rw [show D.length - 1 + 1 = D.length from by omega, List.take_length]
      dsimp only
      rw [headD_eq_getD]
      have hadj : tourEdge D (D.getD (D.length - 1) 0) (D.getD 0 0) = true := by
        rw [tourEdge_getD_iff D hnd _ (by omega)]
        left
        rw [show D.length - 1 + 1 = D.length from by omega, Nat.mod_self]
      rw [if_pos hadj]
  | succ f ih =>
      intro k V hk hk1 hV
      have hk2 : k + 1 < D.length := by omega
      have hkd : k < D.length := by omega
      unfold traverseTour
      have hfind : findNext ⟨D.length, tourEdge D⟩ V (D.getD k 0) =
          some (D.getD (k + 1) 0) := by
        unfold findNext
        dsimp only
        apply find?_range_first
        · exact hmem _ (getD_mem _ _ hk2)
        · rw [Bool.and_eq_true]
          constructor
          · rw [tourEdge_getD_iff D hnd k hkd]
            left
            rw [succ_mod _ _ hkd, if_neg (by omega)]
          · rw [Bool.not_eq_true']
            rw [show (V.contains (D.getD (k + 1) 0) = false) =
              ¬ (V.contains (D.getD (k + 1) 0) = true) from by simp]
            rw [contains_eq_true_iff, hV]
            exact getD_not_mem_take D hnd hk2 (by omega)
        · intro j hj
          by_cases hadj : tourEdge D (D.getD k 0) j = true
          · rw [tourEdge_getD_iff D hnd k hkd] at hadj
            rcases hadj with hj1 | hj2
            · rw [succ_mod _ _ hkd, if_neg (by omega)] at hj1
              omega
            · rw [pred_mod _ _ hn hkd, if_neg (by omega)] at hj2
              have hjV : j ∈ V := by
                rw [hV, hj2]
                exact getD_mem_take D (by omega) (by omega)
              have hcont : V.contains j = true := (contains_eq_true_iff V j).mpr hjV
              rw [hcont]
              simp
          · have hfalse : tourEdge D (D.getD k 0) j = false := by
              cases hx : tourEdge D (D.getD k 0) j
              · rfl
              · exact absurd hx hadj
            rw [hfalse]
            rfl
      rw [hfind]
      dsimp only
      have happ : D.take (k + 1) ++ [D.getD (k + 1) 0] = D.take (k + 1 + 1) := by
        rw [getD_eq_getElem0 D (k + 1) hk2]
        exact List.take_concat_get' D (k + 1) hk2
      rw [happ]
      refine ih (k + 1) (D.getD (k + 1) 0 :: V) (by omega) (by omega) ?_
      intro x
      rw [List.mem_cons, hV x, ← happ, List.mem_append, List.mem_singleton]
      exact or_comm

lemma traverse_entry (D : List ℕ) (hnd : D.Nodup) (h3 : 3 ≤ D.length)
    (hmem : ∀ x ∈ D, x < D.length) (hcov : ∀ x, x < D.length → x ∈ D)
    (h0 : D.getD 0 0 = 0) (hdir : D.getD 1 0 < D.getD (D.length - 1) 0) :
    getCurrentTour ⟨D.length, tourEdge D⟩ = some D := by
  have hn : 0 < D.length := by omega
  have hdeg : ∀ i ∈ List.range D.length,
      decide (degreeOf ⟨D.length, tourEdge D⟩ i ≠ 2) = false := by
    intro i hi
    rw [decide_eq_false_iff_not]
    intro hne
    apply hne
    rw [List.mem_range] at hi
    obtain ⟨k, hk, hEq⟩ := List.mem_iff_getElem.mp (hcov i hi)
    rw [← hEq, ← getD_eq_getElem0 D k hk]
    exact degreeOf_tourEdge_two D hnd h3 hmem k hk
  have hcond : (((List.range (TSPEnv.mk D.length (tourEdge D)).n).any
        fun i => decide (degreeOf ⟨D.length, tourEdge D⟩ i ≠ 2)) ||
      ((TSPEnv.mk D.length (tourEdge D)).n == 0)) = false := by
    dsimp only
    rw [Bool.or_eq_false_iff]
    constructor
    · rw [List.any_eq_false]
      intro i hi
      intro hcontra
      rw [hdeg i hi] at hcontra
      exact Bool.false_ne_true hcontra
    · simp only [beq_eq_false_iff_ne, ne_eq]
      omega
  unfold getCurrentTour
  rw [hcond, if_neg Bool.false_ne_true]
  dsimp only
  rw [show D.length - 1 = (D.length - 2) + 1 from by omega]
  unfold traverseTour
  have hfind : findNext ⟨D.length, tourEdge D⟩ [0] 0 = some (D.getD 1 0) := by
    unfold findNext
    dsimp only
    apply find?_range_first
    · exact hmem _ (getD_mem _ _ (by omega))
    · rw [Bool.and_eq_true]
      constructor
      · have hadj : tourEdge D (D.getD 0 0) (D.getD 1 0) = true := by
          rw [tourEdge_getD_iff D hnd 0 hn]
          left
          rw [succ_mod _ _ hn, if_neg (by omega)]
        rw [h0] at hadj
        exact hadj
      · rw [Bool.not_eq_true']
        rw [show (([0] : List ℕ).contains (D.getD 1 0) = false) =
          ¬ (([0] : List ℕ).contains (D.getD 1 0) = true) from by simp]
        rw [contains_eq_true_iff, List.mem_singleton]
        intro hEq
        have hEq2 : D.getD 1 0 = D.getD 0 0 := by rw [hEq, h0]
        have := getD_inj D hnd (by omega) (by omega) hEq2
        omega
    · intro j hj
      by_cases hadj : tourEdge D 0 j = true
      · have hadj2 : tourEdge D (D.getD 0 0) j = true := by
          rw [h0]
          exact hadj
        rw [tourEdge_getD_iff D hnd 0 hn] at hadj2
        rcases hadj2 with hj1 | hj2
        · rw [succ_mod _ _ hn, if_neg (by omega)] at hj1
          simp only [Nat.zero_add] at hj1
          omega
        · rw [pred_mod _ _ hn hn, if_pos rfl] at hj2
          omega
      · have hfalse : tourEdge D 0 j = false := by
          cases hx : tourEdge D 0 j
          · rfl
          · exact absurd hx hadj
        rw [hfalse]
        rfl
  rw [hfind]
  dsimp only
  have ht1 : D.take 1 = [D.getD 0 0] := by
    have := List.take_concat_get' D 0 hn
    rw [← getD_eq_getElem0 D 0 hn] at this
    simpa using this.symm
  have happ : ([0] : List ℕ) ++ [D.getD 1 0] = D.take (1 + 1) := by
    rw [show ([0] : List ℕ) = [D.getD 0 0] from by rw [h0], ← ht1]
    rw [getD_eq_getElem0 D 1 (by omega)]
    exact List.take_concat_get' D 1 (by omega)
  rw [happ]
  refine traverse_loop D hnd h3 hmem (D.length - 2) 1 (D.getD 1 0 :: [0])
    (by omega) (by omega) ?_
  intro x
  rw [List.mem_cons, List.mem_singleton, ← happ, List.mem_append,
    List.mem_singleton, List.mem_singleton]
  exact or_comm

/-- The canonical representative that `get_current_tour` reconstructs:
the committed tour rotated to start at city `0`, in the direction whose
first step visits the smaller-indexed neighbor of `0`. -/
def canonicalTour (t : List ℕ) : List ℕ :=
  let r := t.rotate (t.indexOf 0)
  if r.getD 1 0 < r.getD (r.length - 1) 0 then r
  else r.reverse.rotate (r.length - 1)

lemma canonicalTour_spec (t : List ℕ) (hperm : t.Perm (List.range t.length))
    (h3 : 3 ≤ t.length) :
    (canonicalTour t).length = t.length ∧
    (canonicalTour t).Perm (List.range t.length) ∧
    (canonicalTour t).getD 0 0 = 0 ∧
    (canonicalTour t).getD 1 0 <
      (canonicalTour t).getD ((canonicalTour t).length - 1) 0 ∧
    (∀ a b, tourEdge (canonicalTour t) a b = tourEdge t a b) ∧
    (∃ k, canonicalTour t = t.rotate k ∨
      canonicalTour t = t.reverse.rotate k) := by
  have hn : 0 < t.length := by omega
  have htnd : t.Nodup := hperm.nodup_iff.mpr (List.nodup_range _)
  have h0t : 0 ∈ t := by
    rw [hperm.mem_iff, List.mem_range]
    omega
  have hi0 : t.indexOf 0 < t.length := List.indexOf_lt_length.mpr h0t
  set r := t.rotate (t.indexOf 0) with hr
  have hrlen : r.length = t.length := List.length_rotate t _
  have hrperm : r.Perm (List.range t.length) := (List.rotate_perm t _).trans hperm
  have hrnd : r.Nodup := (List.rotate_perm t _).nodup_iff.mpr htnd
  have hr0 : r.getD 0 0 = 0 := by
    rw [hr, getD_rotate t _ 0 hn, Nat.zero_add, Nat.mod_eq_of_lt hi0,
      getD_lt t _ hi0]
    exact List.indexOf_get hi0
  have hne : r.getD 1 0 ≠ r.getD (r.length - 1) 0 := by
    intro h
    have := getD_inj r hrnd (by omega) (by omega) h
    omega
  have hredge : ∀ a b, tourEdge r a b = tourEdge t a b := fun a b =>
    tourEdge_rotate t _ a b
  by_cases hbr : r.getD 1 0 < r.getD (r.length - 1) 0
  · have hD : canonicalTour t = r := by
      unfold canonicalTour
      rw [← hr, if_pos hbr]
    rw [hD]
    exact ⟨hrlen, hrperm, hr0, by rw [hrlen] at hbr ⊢; exact hbr, hredge,
      ⟨t.indexOf 0, Or.inl rfl⟩⟩
  · have hD : canonicalTour t = r.reverse.rotate (r.length - 1) := by
      unfold canonicalTour
      rw [← hr, if_neg hbr]
    have hrevlen : r.reverse.length = t.length := by
      rw [List.length_reverse, hrlen]
    have hDlen : (r.reverse.rotate (r.length - 1)).length = t.length := by
      rw [List.length_rotate, hrevlen]
    have hD0 : (r.reverse.rotate (r.length - 1)).getD 0 0 = 0 := by
      rw [getD_rotate _ _ 0 (by omega), Nat.zero_add, hrevlen,
        Nat.mod_eq_of_lt (by omega), getD_reverse r _ (by omega), hrlen]
      rw [show t.length - 1 - (t.length - 1) = 0 from by omega]
      exact hr0
    have hD1 : (r.reverse.rotate (r.length - 1)).getD 1 0 =
        r.getD (t.length - 1) 0 := by
      rw [getD_rotate _ _ 1 (by omega), hrevlen, hrlen]
      rw [show (1 + (t.length - 1)) % t.length = 0 from by
        rw [show 1 + (t.length - 1) = t.length from by omega, Nat.mod_self]]
      rw [getD_reverse r _ (by omega), hrlen]
      rw [show t.length - 1 - 0 = t.length - 1 from by omega]
    have hDlast : (r.reverse.rotate (r.length - 1)).getD
        ((r.reverse.rotate (r.length - 1)).length - 1) 0 = r.getD 1 0 := by
      rw [hDlen, getD_rotate _ _ (t.length - 1) (by omega), hrevlen, hrlen]
      rw [show (t.length - 1 + (t.length - 1)) % t.length = t.length - 2 from by
        rw [show t.length - 1 + (t.length - 1) = t.length + (t.length - 2) from by
          omega, Nat.add_mod_left]
        exact Nat.mod_eq_of_lt (by omega)]
      rw [getD_reverse r _ (by omega), hrlen]
      rw [show t.length - 1 - (t.length - 2) = 1 from by omega]
    rw [hD]
    refine ⟨hDlen, ?_, hD0, ?_, ?_, ?_⟩
    · exact (List.rotate_perm _ _).trans ((List.reverse_perm r).trans hrperm)
    · rw [hD1, hDlast]
      rw [hrlen] at hne hbr
      omega
    · intro a b
      rw [tourEdge_rotate, tourEdge_reverse]
      exact hredge a b
    · refine ⟨t.length - t.indexOf 0 % t.length + (r.length - 1), Or.inr ?_⟩
      rw [hr, List.reverse_rotate, List.rotate_rotate]

/-- C5 (amended): on an environment with at least three cities, committing
any full permutation with `setTour` and immediately reading
`get_current_tour` yields a non-null tour — the committed cycle rotated
to start at city `0` (and possibly reversed), i.e. the committed tour up
to representation. -/
theorem c5_commit_roundtrip (e : TSPEnv) (t : List ℕ)
    (hperm : t.Perm (List.range e.n)) (h3 : 3 ≤ e.n) :
    getCurrentTour (setTour e t) = some (canonicalTour t) ∧
    (∃ k, canonicalTour t = t.rotate k ∨
      canonicalTour t = t.reverse.rotate k) ∧
    (canonicalTour t).getD 0 0 = 0 := by
  have hlen : t.length = e.n := by rw [hperm.length_eq, List.length_range]
  have hperm' : t.Perm (List.range t.length) := by rw [hlen]; exact hperm
  obtain ⟨hDlen, hDperm, hD0, hDdir, hDedge, hDrep⟩ :=
    canonicalTour_spec t hperm' (by omega)
  refine ⟨?_, hDrep, hD0⟩
  have hsetTour : setTour e t = ⟨e.n, tourEdge t⟩ := by
    unfold setTour
    rw [if_neg (by omega)]
  rw [hsetTour]
  have henv : (⟨e.n, tourEdge t⟩ : TSPEnv) =
      ⟨(canonicalTour t).length, tourEdge (canonicalTour t)⟩ := by
    have h1 : e.n = (canonicalTour t).length := by omega
    rw [h1]
    congr 1
    funext a b
    exact (hDedge a b).symm
  rw [henv]
  have hDnd : (canonicalTour t).Nodup := hDperm.nodup_iff.mpr (List.nodup_range _)
  refine traverse_entry (canonicalTour t) hDnd (by omega) ?_ ?_ hD0 hDdir
  · intro x hx
    have := hDperm.mem_iff.mp hx
    rw [List.mem_range] at this
    omega
  · intro x hx
    rw [hDperm.mem_iff, List.mem_range]
    omega

/-- Witness for C5 (amended): committing the permutation `[0, 2, 1]` on a
3-city environment and reading back yields its canonical representative. -/
theorem c5_commit_roundtrip_witness :
    getCurrentTour (setTour tsp3 [0, 2, 1]) = some (canonicalTour [0, 2, 1]) :=
  (c5_commit_roundtrip tsp3 [0, 2, 1] (by decide) (by decide)).1

example : canonicalTour [0, 2, 1] = [0, 1, 2] := by decide

/-! Sanity checks on the primitive JS models. -/

example : splitOnChar '+' ("a+b".toList) = ["a".toList, "b".toList] := by decide

example : splitOnChar '+' ("ab".toList) = ["ab".toList] := by decide

example : splitOnChar '+' ("a+".toList) = ["a".toList, []] := by decide

example : idBase ("conn_mut42".toList) = "conn".toList := by decide

example : jsDiv (JSNum.fin (-1)) (JSNum.fin 0) = JSNum.negInf := by decide

example : jsDiv (JSNum.fin 0) (JSNum.fin 0) = JSNum.nan := by decide

example : jsSub JSNum.posInf JSNum.posInf = JSNum.nan := by decide
